import Mathlib

/-!
Verification development for the `what-to-watch` deck pipeline
(`src/app/api/deck/route.ts`): a shallow embedding of the deterministic
candidate-ranking pipeline (hashing, seeded PRNG, bucket shuffling,
intent extraction, genre-preference weighting, scoring, filtering, deck
assembly and request parsing), together with theorems settling the
specification claims.

Modelling conventions:
* JavaScript numbers are modelled as exact rationals (`ℚ`); IEEE-754
  double rounding is not modelled.  All integer-bitwise JS operations
  (`>>>`, `^`, `|`, `Math.imul`) act on 32-bit patterns and are modelled
  on `Nat` with explicit reduction modulo `2^32`.
* `Math.log10` is the one transcendental the scorer uses; it is passed
  as an explicit function parameter `L : ℚ → ℚ` so that every definition
  stays computable.  All claims are proved for every `L`.
* JS strings are modelled as `String`/`List Char`; `charCodeAt` is
  modelled as the Unicode scalar value (identical on BMP strings, and in
  particular on all ASCII session ids, dates and queries).
* `Array.prototype.sort` with comparator `(a, b) => b.s - a.s` is, per
  ES2019+, a stable sort; a stable descending sort is unique, so it is
  modelled by a stable insertion sort.
* `Map` insertion keeps first-insertion key order with last-written
  values; the dedup fold below reproduces exactly that.
-/

namespace WTW

/-! ## JS 32-bit primitives (route.ts lines 21–45) -/

/-- Reduction of a `Nat` to an unsigned 32-bit pattern (JS `>>> 0`). -/
def u32 (n : Nat) : Nat := n % 4294967296

/-- JS `Math.imul`: the 32-bit pattern of the product (two's-complement
multiplication agrees with unsigned multiplication mod `2^32`). -/
def jsImul (a b : Nat) : Nat := u32 (a * b)

/-- The seed hash of `route.ts` (`hashStringToSeed`, lines 21–29): an
FNV-1a style fold over the string's char codes, `h := 2166136261`, then
per char `h ^= code; h = Math.imul(h, 16777619)`, returned as `>>> 0`.
The running value always stays below `2^32`, so the final `>>> 0` is the
identity and is omitted. -/
def hashStringToSeed (s : String) : Nat :=
  s.data.foldl (fun h c => jsImul (h ^^^ c.toNat) 16777619) 2166136261

/-- One step of the `mulberry32` generator (route.ts lines 31–38).
The closure's captured `seed` is made explicit: given the current state
it returns the raw 32-bit output (the JS function returns this value
divided by `2^32`) and the next state (`seed += 0x6d2b79f5`, reduced to
its 32-bit pattern, which is all later operations observe). -/
def mulberryNext (state : Nat) : Nat × Nat :=
  let s := u32 (state + 1831565813)
  let t1 := jsImul (s ^^^ (s >>> 15)) (s ||| 1)
  let t2 := t1 ^^^ u32 (t1 + jsImul (t1 ^^^ (t1 >>> 7)) (t1 ||| 61))
  (t2 ^^^ (t2 >>> 14), s)

/-- JS `Math.floor(rand() * bound)` where `rand()` returned `u / 2^32`:
both the division and the product are exact in doubles for `u < 2^32`
and `bound ≤ 2^32`, so the result is the integer division below. -/
def randIndex (u bound : Nat) : Nat := u * bound / 4294967296

/-! ## Fisher–Yates shuffle (route.ts `shuffleInPlace`, lines 40–45) -/

/-- Swap of two positions of a list (the JS destructuring assignment
`[arr[i], arr[j]] = [arr[j], arr[i]]`); out-of-range indices leave the
list unchanged (they never occur in the pipeline). -/
def swapL {α : Type} (l : List α) (i j : Nat) : List α :=
  match l[i]?, l[j]? with
  | some a, some b => (l.set i b).set j a
  | _, _ => l

/-- The loop of `shuffleInPlace`, indices `i, i-1, …, 1`, threading the
generator state: at index `i` it draws one output `u` and swaps position
`i` with `j = floor(u/2^32 * (i+1))`. -/
def fyAux {α : Type} : List α → Nat → Nat → List α × Nat
  | l, st, 0 => (l, st)
  | l, st, i + 1 =>
    let p := mulberryNext st
    fyAux (swapL l (i + 1) (randIndex p.1 (i + 2))) p.2 i

/-- `shuffleInPlace(arr, rand)` of route.ts: a uniform in-place
Fisher–Yates shuffle running `i` from `arr.length - 1` down to `1`,
returning the shuffled list and the generator state after it. -/
def shuffleInPlace {α : Type} (l : List α) (st : Nat) : List α × Nat :=
  fyAux l st (l.length - 1)

/-! ## Data model -/

/-- A TMDB movie as the deck route consumes it (`TmdbMovie` of
`lib/tmdb.ts`, accessed defensively in route.ts with `?? 0` / `?? []`,
hence the `Option` fields). `poster_path` is `string | null`. -/
structure Movie where
  id : Int
  title : String
  overview : Option String
  release_date : Option String
  genre_ids : Option (List Int)
  vote_average : Option ℚ
  vote_count : Option ℚ
  popularity : Option ℚ
  poster_path : Option String
deriving DecidableEq, Repr

/-- The intent signature (route.ts `Signature`, lines 54–62). -/
structure Signature where
  anime : Bool
  comedy : Bool
  horror : Bool
  mystery : Bool
  trippy : Bool
  underrated : Bool
  badMovie : Bool
deriving DecidableEq, Repr

/-- The two output categories of `DeckCard.kind` (`"movie" | "tv"`). -/
inductive Kind where
  | movie
  | tv
deriving DecidableEq, Repr

/-- An output card (route.ts `DeckCard`, lines 6–13). -/
structure DeckCard where
  id : String
  title : String
  year : ℚ
  kind : Kind
  reason : String
  posterPath : Option String
deriving DecidableEq, Repr

/-- The genre-id constants of route.ts (`GENRE`, lines 47–52). -/
def genreAnimation : Int := 16

/-- Genre id of comedy (route.ts `GENRE.comedy`). -/
def genreComedy : Int := 35

/-- Genre id of horror (route.ts `GENRE.horror`). -/
def genreHorror : Int := 27

/-- Genre id of mystery (route.ts `GENRE.mystery`). -/
def genreMystery : Int := 9648

/-! ## JS string helpers -/

/-- JS `toLowerCase`, modelled per char (exact on ASCII, which covers
every lexicon phrase and overview keyword the route compares against). -/
def jsToLowerCase (s : String) : String := String.mk (s.data.map Char.toLower)

/-- JS `String.prototype.includes`: substring containment. -/
def strIncludes (t sub : String) : Bool := decide (sub.data <:+: t.data)

/-- JS whitespace for `trim` / `Number` conversion (ASCII white space
plus NBSP; the exotic Unicode space classes are not modelled). -/
def isJsSpace (c : Char) : Bool :=
  c == ' ' || c == '\t' || c == '\n' || c == '\r' || c == '\x0b' ||
    c == '\x0c' || c == ' '

/-- JS `String.prototype.trim` on a char list. -/
def trimChars (cs : List Char) : List Char :=
  ((cs.dropWhile isJsSpace).reverse.dropWhile isJsSpace).reverse

/-- JS `String.prototype.trim`. -/
def jsTrim (s : String) : String := String.mk (trimChars s.data)

/-! ## Intent extractor (route.ts `makeSignature`, lines 78–127) -/

/-- Lexicon of the `anime` flag. -/
def animeLexicon : List String := ["anime", "shonen", "isekai", "slice of life"]

/-- Lexicon of the `comedy` flag. -/
def comedyLexicon : List String :=
  ["comedy", "funny", "humour", "humor", "laugh", "satire"]

/-- Lexicon of the `horror` flag. -/
def horrorLexicon : List String :=
  ["horror", "scary", "slasher", "haunting", "ghost", "demon"]

/-- Lexicon of the `mystery` flag. -/
def mysteryLexicon : List String :=
  ["mystery", "detective", "whodunit", "investigation", "case"]

/-- Lexicon of the `trippy` flag. -/
def trippyLexicon : List String :=
  ["trippy", "psychedelic", "surreal", "mind-bending", "mind bending",
    "weird", "acid"]

/-- Lexicon of the `underrated` flag. -/
def underratedLexicon : List String :=
  ["underrated", "hidden gem", "hidden gems", "gem", "gems",
    "under the radar"]

/-- Lexicon of the `badMovie` flag. -/
def badMovieLexicon : List String :=
  ["bad movie", "so bad", "trash", "terrible", "awful", "guilty pleasure"]

/-- The `hasAny` helper of `makeSignature`: some phrase occurs as a
substring of the (already lower-cased) text. -/
def hasAnyPhrase (t : String) (ws : List String) : Bool :=
  ws.any (fun w => strIncludes t w)

/-- The intent extractor `makeSignature` of route.ts: lower-case the
query, then test each flag's lexicon by substring containment. -/
def makeSignature (q : String) : Signature :=
  let t := jsToLowerCase q
  { anime := hasAnyPhrase t animeLexicon
  , comedy := hasAnyPhrase t comedyLexicon
  , horror := hasAnyPhrase t horrorLexicon
  , mystery := hasAnyPhrase t mysteryLexicon
  , trippy := hasAnyPhrase t trippyLexicon
  , underrated := hasAnyPhrase t underratedLexicon
  , badMovie := hasAnyPhrase t badMovieLexicon }

/-! ## Preference model (route.ts `buildGenreWeights`, lines 129–154) -/

/-- The like-counter map of `buildGenreWeights` as a function
`genreId → count`: the code walks the merged (pre-dedup) movie list and,
for each movie whose stringified id is in the feedback set, bumps the
counter of every genre tag.  The pass-counter is the same function
applied to the passed ids (the code builds both in one loop). -/
def likeCountOf (pool : List Movie) (keptIds : List String) (g : Int) : Nat :=
  ((pool.filter (fun m => keptIds.contains (toString m.id))).map
      (fun m => (m.genre_ids.getD []).count g)).sum

/-! ## Scorer (route.ts `scoreMovie`, lines 156–219) -/

/-- The scorer, transcribed statement by statement from `scoreMovie`
(sequential `s += …` accumulation; `L` stands for `Math.log10`).
Membership in `new Set(m.genre_ids ?? [])` coincides with membership in
the underlying list. -/
def scoreMovie (L : ℚ → ℚ) (m : Movie) (sig : Signature)
    (likeCounts passCounts : Int → Nat) : ℚ :=
  let voteAvg : ℚ := m.vote_average.getD 0
  let voteCount : ℚ := m.vote_count.getD 0
  let popularity : ℚ := m.popularity.getD 0
  let genres : List Int := m.genre_ids.getD []
  let s : ℚ := 0
  let s := s + voteAvg * 2
  let s := s + L (voteCount + 1) * 3
  let s := if sig.comedy && genres.contains genreComedy then s + 18 else s
  let s := if sig.horror && genres.contains genreHorror then s + 18 else s
  let s := if sig.mystery && genres.contains genreMystery then s + 14 else s
  let s := if sig.anime && genres.contains genreAnimation then s + 10 else s
  let s := if sig.underrated then s + max 0 (30 - L (popularity + 1) * 10) else s
  let s := if sig.badMovie then s - voteAvg * 2 + L (popularity + 1) * 2 else s
  let text := jsToLowerCase (m.overview.getD "")
  let s := if sig.trippy && (strIncludes text "surreal" ||
      strIncludes text "psychedelic" || strIncludes text "strange")
    then s + 6 else s
  genres.foldl (fun acc g =>
    acc + (likeCounts g : ℚ) * 2 - (passCounts g : ℚ) * 1) s

/-! ## Request-body parsing (route.ts lines 64–76 and 229–263) -/

/-- A parsed JSON value (`await request.json()`); numeric values are
modelled as integers (the route only type-dispatches on them and the
spec's `rerollIndex` is an integer). -/
inductive JVal where
  | jnull
  | jbool (b : Bool)
  | jnum (n : Int)
  | jstr (s : String)
  | jarr (elems : List JVal)
  | jobj (fields : List (String × JVal))

/-- Property lookup on a parsed JSON value: only objects carry the
string keys the route reads (a parsed JSON array or primitive has no
such own property). -/
def jfield : JVal → String → Option JVal
  | .jobj fields, key => fields.lookup key
  | _, _ => none

/-- route.ts `getStringField`: the value of `key` when it exists and is
a string, otherwise `null`. -/
def getStringField (body : JVal) (key : String) : Option String :=
  match jfield body key with
  | some (.jstr s) => some s
  | _ => none

/-- route.ts `getNumberField`: the value of `key` when it exists and is
a number, otherwise `null`. -/
def getNumberField (body : JVal) (key : String) : Option Int :=
  match jfield body key with
  | some (.jnum n) => some n
  | _ => none

/-- String projection used by the `likes`/`passes` element filter. -/
def jstrOf : JVal → Option String
  | .jstr s => some s
  | _ => none

/-- The `likes`/`passes` extraction of route.ts (lines 245–263): when
the field exists and is an array, keep its string elements; in every
other case (missing field, non-object body, non-array value) yield `[]`. -/
def getArrayStrings (body : JVal) (key : String) : List String :=
  match jfield body key with
  | some (.jarr xs) => xs.filterMap jstrOf
  | _ => []

/-- The parsed request the pipeline runs on. -/
structure ParsedReq where
  q : String
  reroll : Int
  likes : List String
  passes : List String
deriving DecidableEq, Repr

/-- Request parsing of the POST handler: an unparseable body (`none`)
becomes `{}`, `q` defaults to `""` and is trimmed, `reroll` defaults to
`0`, and the feedback lists default to `[]`. -/
def parseRequest (body : Option JVal) : ParsedReq :=
  let b := body.getD (JVal.jobj [])
  { q := jsTrim ((getStringField b "q").getD "")
  , reroll := (getNumberField b "reroll").getD 0
  , likes := getArrayStrings b "likes"
  , passes := getArrayStrings b "passes" }

/-! ## Card year (route.ts `yearFromDate`, lines 15–19) -/

/-- Decimal/hex digit value of a char, for the `Number()` model. -/
def hexDigitVal (c : Char) : Option Nat :=
  if c.isDigit then some (c.toNat - 48)
  else if 'a' ≤ c ∧ c ≤ 'f' then some (c.toNat - 87)
  else if 'A' ≤ c ∧ c ≤ 'F' then some (c.toNat - 55)
  else none

/-- Digit value in a given radix. -/
def radixVal (radix : Nat) (c : Char) : Option Nat :=
  match hexDigitVal c with
  | some d => if d < radix then some d else none
  | none => none

/-- Accumulating radix-digit parse; fails on the first non-digit. -/
def parseRadixAux (radix : Nat) : List Char → Nat → Option Nat
  | [], acc => some acc
  | c :: cs, acc =>
    match radixVal radix c with
    | some d => parseRadixAux radix cs (acc * radix + d)
    | none => none

/-- One-or-more radix digits consuming the whole input. -/
def parseRadixDigits (radix : Nat) (cs : List Char) : Option Nat :=
  if cs.isEmpty then none else parseRadixAux radix cs 0

/-- Exponent digits after the `e`, with optional sign. -/
def parseExpTail : List Char → Option Int
  | '+' :: cs => (parseRadixDigits 10 cs).map (fun n => (n : Int))
  | '-' :: cs => (parseRadixDigits 10 cs).map (fun n => -(n : Int))
  | cs => (parseRadixDigits 10 cs).map (fun n => (n : Int))

/-- Optional exponent part of a decimal literal. -/
def parseExpPart : List Char → Option Int
  | [] => some 0
  | 'e' :: cs => parseExpTail cs
  | 'E' :: cs => parseExpTail cs
  | _ => none

/-- Scale a rational by a power of ten. -/
def applyExp (x : ℚ) (e : Int) : ℚ :=
  if 0 ≤ e then x * (10 : ℚ) ^ e.toNat else x / (10 : ℚ) ^ (-e).toNat

/-- Decimal literal of the `Number()` grammar:
`digits [. digits] [exp]` or `. digits [exp]`. -/
def parseDecimal (cs : List Char) : Option ℚ :=
  let intPart := cs.takeWhile (fun c => c.isDigit)
  let rest := cs.dropWhile (fun c => c.isDigit)
  match rest with
  | '.' :: rest2 =>
    let fracPart := rest2.takeWhile (fun c => c.isDigit)
    let rest3 := rest2.dropWhile (fun c => c.isDigit)
    if intPart.isEmpty && fracPart.isEmpty then none
    else
      match parseExpPart rest3 with
      | some e =>
        let iv : ℚ := ((parseRadixAux 10 intPart 0).getD 0 : Nat)
        let fv : ℚ := ((parseRadixAux 10 fracPart 0).getD 0 : Nat)
        some (applyExp (iv + fv / (10 : ℚ) ^ fracPart.length) e)
      | none => none
  | _ =>
    if intPart.isEmpty then none
    else
      match parseExpPart rest with
      | some e =>
        some (applyExp (((parseRadixAux 10 intPart 0).getD 0 : Nat) : ℚ) e)
      | none => none

/-- Unsigned numeric string: `Infinity` is non-finite and is absorbed
into `none` (the route's `Number.isFinite` guard maps it to `0` exactly
like `NaN`); everything else follows the decimal grammar. -/
def parseUnsigned (cs : List Char) : Option ℚ :=
  if cs = "Infinity".data then none else parseDecimal cs

/-- Signed or radix-prefixed numeric string of the `Number()` grammar
(a sign is only legal on decimal literals). -/
def parseStrNumeric : List Char → Option ℚ
  | '0' :: 'x' :: cs => (parseRadixDigits 16 cs).map (fun n => (n : ℚ))
  | '0' :: 'X' :: cs => (parseRadixDigits 16 cs).map (fun n => (n : ℚ))
  | '0' :: 'o' :: cs => (parseRadixDigits 8 cs).map (fun n => (n : ℚ))
  | '0' :: 'O' :: cs => (parseRadixDigits 8 cs).map (fun n => (n : ℚ))
  | '0' :: 'b' :: cs => (parseRadixDigits 2 cs).map (fun n => (n : ℚ))
  | '0' :: 'B' :: cs => (parseRadixDigits 2 cs).map (fun n => (n : ℚ))
  | '+' :: cs => parseUnsigned cs
  | '-' :: cs => (parseUnsigned cs).map Neg.neg
  | cs => parseUnsigned cs

/-- JS `Number(string)` restricted to finite results: `none` stands for
`NaN` or `±Infinity` (both fail the route's `Number.isFinite` check);
values are exact rationals (double rounding not modelled). -/
def jsToNumber (s : String) : Option ℚ :=
  let cs := trimChars s.data
  if cs.isEmpty then some 0 else parseStrNumeric cs

/-- JS `dateStr.slice(0, 4)`. -/
def jsSlice4 (s : String) : String := String.mk (s.data.take 4)

/-- route.ts `yearFromDate`: `0` for a missing or empty (falsy) date
string, else `Number(dateStr.slice(0, 4))` guarded by
`Number.isFinite`. -/
def yearFromDate : Option String → ℚ
  | none => 0
  | some d =>
    if d == "" then 0
    else
      match jsToNumber (jsSlice4 d) with
      | some y => y
      | none => 0

/-! ## Candidate aggregation and filtering (POST, lines 326–377) -/

/-- One `byId.set(m.id, m)` step: an existing key keeps its position but
takes the new value (JS `Map` semantics), a new key appends. -/
def insertById (acc : List Movie) (m : Movie) : List Movie :=
  if acc.any (fun x => x.id == m.id) then
    acc.map (fun x => if x.id == m.id then m else x)
  else acc ++ [m]

/-- `Array.from(byId.values())` after inserting the merged slices in
order: dedup by id, first-insertion order, last-write-wins values. -/
def dedupeById (ms : List Movie) : List Movie := ms.foldl insertById []

/-- Truthiness of `m.poster_path` (`string | null`): `null` and the
empty string are falsy. -/
def isTruthyStr : Option String → Bool
  | none => false
  | some s => !(s == "")

/-- The hygiene-filtered candidate pool (POST lines 336–345): dedup then
the four `.filter` calls in source order — poster truthy, vote count at
least 50 (underrated) / 200, popularity at most 60 in underrated mode
(the `Infinity` bound otherwise is no constraint), id not previously
seen (`Set([...likes, ...passes])`). -/
def candidatesOf (sig : Signature) (merged : List Movie)
    (likes passes : List String) : List Movie :=
  let minVotes : ℚ := if sig.underrated then 50 else 200
  let seenIds := likes ++ passes
  ((((dedupeById merged).filter (fun m => isTruthyStr m.poster_path)).filter
      (fun m => decide (minVotes ≤ m.vote_count.getD 0))).filter
      (fun m => if sig.underrated then decide (m.popularity.getD 0 ≤ 60)
                else true)).filter
      (fun m => !(seenIds.contains (toString m.id)))

/-- POST lines 350–352: how many of the four genre intents are set. -/
def intentCount (sig : Signature) : Nat :=
  ([sig.anime, sig.comedy, sig.horror, sig.mystery].filter (fun b => b)).length

/-- POST lines 354–355: exactly one genre intent, and neither the
underrated nor the bad-movie mode. -/
def isSingleGenreIntent (sig : Signature) : Bool :=
  intentCount sig == 1 && !sig.underrated && !sig.badMovie

/-- The four conditional genre filters of POST lines 357–373, applied in
source order (under a single-genre intent only one of them fires). -/
def genreRestrict (sig : Signature) (cands : List Movie) : List Movie :=
  let f1 := if sig.comedy then
      cands.filter (fun m => (m.genre_ids.getD []).contains genreComedy)
    else cands
  let f2 := if sig.horror then
      f1.filter (fun m => (m.genre_ids.getD []).contains genreHorror)
    else f1
  let f3 := if sig.mystery then
      f2.filter (fun m => (m.genre_ids.getD []).contains genreMystery)
    else f2
  if sig.anime then
    f3.filter (fun m => (m.genre_ids.getD []).contains genreAnimation)
  else f3

/-- POST lines 348–377: the pool actually ranked — genre-restricted
under a single-genre intent, reverted to the unrestricted candidates
when the restriction leaves fewer than 25. -/
def filteredOf (sig : Signature) (cands : List Movie) : List Movie :=
  if isSingleGenreIntent sig then
    let f := genreRestrict sig cands
    if f.length < 25 then cands else f
  else cands

/-! ## Ranking (POST lines 383–386) -/

/-- Stable insertion of a scored movie into a descending-sorted list:
it goes after every element whose score is at least as large. -/
def insertDesc (x : Movie × ℚ) : List (Movie × ℚ) → List (Movie × ℚ)
  | [] => [x]
  | y :: ys => if x.2 ≤ y.2 then y :: insertDesc x ys else x :: y :: ys

/-- Stable descending sort by score.  `Array.prototype.sort` with the
consistent comparator `(a, b) => b.s - a.s` is required (ES2019+) to be
a stable sort, and the stable descending reordering is unique, so this
insertion sort computes exactly the JS result. -/
def sortDesc (l : List (Movie × ℚ)) : List (Movie × ℚ) :=
  l.foldl (fun acc x => insertDesc x acc) []

/-- POST lines 383–386: pair every pool movie with its score, sort by
score descending, and project the movies back out. -/
def rankedOf (L : ℚ → ℚ) (sig : Signature) (lc pc : Int → Nat)
    (pool : List Movie) : List Movie :=
  (sortDesc (pool.map (fun m => (m, scoreMovie L m sig lc pc)))).map Prod.fst

/-! ## Deck assembly (POST lines 388–409) -/

/-- The top-up loop of POST lines 397–406: walk the ranked list, stop at
10 picks, skip ids already picked. -/
def topUpAux : List Movie → List Movie → List Int → List Movie
  | [], picked, _ => picked
  | m :: rest, picked, seen =>
    if 10 ≤ picked.length then picked
    else if seen.contains m.id then topUpAux rest picked seen
    else topUpAux rest (picked ++ [m]) (m.id :: seen)

/-- Deck assembly from the ranked list and the seed (POST lines
388–409): shuffle `ranked[0:60)` then `ranked[60:220)` with the same
generator (state threaded sequentially), take 6 + 4, top up from the
ranked list when short, and cap at 10. -/
def assembleDeck (ranked : List Movie) (seed : Nat) : List Movie :=
  let topBucket := ranked.take 60
  let midBucket := (ranked.drop 60).take 160
  let p1 := shuffleInPlace topBucket seed
  let p2 := shuffleInPlace midBucket p1.2
  let picked0 := p1.1.take 6 ++ p2.1.take 4
  let picked1 :=
    if picked0.length < 10 then
      topUpAux ranked picked0 (picked0.map Movie.id)
    else picked0
  picked1.take 10

/-! ## The pipeline (POST, lines 221–446) -/

/-- POST line 380: the seed is the hash of
`` `${sessionId}:${day}:${reroll}` ``. -/
def deckSeed (sessionId day : String) (reroll : Int) : Nat :=
  hashStringToSeed (sessionId ++ ":" ++ day ++ ":" ++ toString reroll)

/-- The deterministic core of the POST handler, from the parsed request
and the four fetched slices to the picked movies, composing signature
extraction, merge, genre weights, hygiene filters, single-genre
restriction, scoring, ranking, seeded shuffling and deck assembly. -/
def pickedMovies (L : ℚ → ℚ) (sessionId day : String) (reroll : Int)
    (q : String) (likes passes : List String)
    (sliceA1 sliceA2 sliceB1 sliceB2 : List Movie) : List Movie :=
  let sig := makeSignature q
  let merged := sliceA1 ++ sliceA2 ++ sliceB1 ++ sliceB2
  let lc := likeCountOf merged likes
  let pc := likeCountOf merged passes
  let cands := candidatesOf sig merged likes passes
  let ranked := rankedOf L sig lc pc (filteredOf sig cands)
  assembleDeck ranked (deckSeed sessionId day reroll)

/-- The reason label (POST lines 416–428), first match wins. -/
def reasonOf (sig : Signature) : String :=
  if sig.underrated then "Underrated pick"
  else if sig.badMovie then "So-bad-it’s-good energy"
  else if sig.trippy then "Trippy vibes match"
  else if sig.comedy then "Comedy match"
  else if sig.horror then "Horror match"
  else if sig.mystery then "Mystery match"
  else "Curated pick"

/-- Card construction (POST lines 411–431). -/
def toCard (sig : Signature) (m : Movie) : DeckCard :=
  { id := toString m.id
  , title := m.title
  , year := yearFromDate m.release_date
  , kind := Kind.movie
  , reason := reasonOf sig
  , posterPath := m.poster_path }

/-- The full deterministic pipeline to the returned card list. -/
def buildDeck (L : ℚ → ℚ) (sessionId day : String) (reroll : Int)
    (q : String) (likes passes : List String)
    (s1 s2 s3 s4 : List Movie) : List DeckCard :=
  (pickedMovies L sessionId day reroll q likes passes s1 s2 s3 s4).map
    (toCard (makeSignature q))

/-- The six-plus-four initial pick of the deck assembler, before any
top-up: the first 6 entries of the shuffled top bucket followed by the
first 4 of the shuffled mid bucket, the two shuffles consuming one
shared generator state sequentially (top bucket strictly first). -/
def pickedInit (ranked : List Movie) (seed : Nat) : List Movie :=
  (shuffleInPlace (ranked.take 60) seed).1.take 6 ++
    (shuffleInPlace ((ranked.drop 60).take 160)
      (shuffleInPlace (ranked.take 60) seed).2).1.take 4

/-- The scorer formula exactly as the specification writes it: one
additive sum of the baseline, the four genre-intent bonuses, the
underrated and bad-movie adjustments, the overview nudge, and the
per-genre-tag taste shaping. -/
def scoreSpec (L : ℚ → ℚ) (m : Movie) (sig : Signature)
    (likeCounts passCounts : Int → Nat) : ℚ :=
  let voteAvg : ℚ := m.vote_average.getD 0
  let voteCount : ℚ := m.vote_count.getD 0
  let popularity : ℚ := m.popularity.getD 0
  let genres : List Int := m.genre_ids.getD []
  let overviewText := jsToLowerCase (m.overview.getD "")
  2 * voteAvg + 3 * L (voteCount + 1)
    + (if sig.comedy && genres.contains 35 then 18 else 0)
    + (if sig.horror && genres.contains 27 then 18 else 0)
    + (if sig.mystery && genres.contains 9648 then 14 else 0)
    + (if sig.anime && genres.contains 16 then 10 else 0)
    + (if sig.underrated then max 0 (30 - 10 * L (popularity + 1)) else 0)
    + (if sig.badMovie then -2 * voteAvg + 2 * L (popularity + 1) else 0)
    + (if sig.trippy && (strIncludes overviewText "surreal" ||
        strIncludes overviewText "psychedelic" ||
        strIncludes overviewText "strange") then 6 else 0)
    + (genres.map (fun g =>
        2 * (likeCounts g : ℚ) - 1 * (passCounts g : ℚ))).sum

/-! ## Support definitions for claims and witnesses -/

/-- The like-counter exactly as claim C3 words it: the number of
distinct pool candidates (dedup by id) tagged with the genre whose id is
in the kept set. -/
def distinctLikeCount (pool : List Movie) (keptIds : List String)
    (g : Int) : Nat :=
  ((dedupeById pool).filter (fun m =>
    keptIds.contains (toString m.id) &&
      (m.genre_ids.getD []).contains g)).length

/-- A concrete comedy-tagged candidate that can appear in two slices at
once (the two era windows share their boundary year, so the same movie
can be returned by both era queries). -/
def dupMovie : Movie :=
  { id := 7, title := "Dup", overview := none, release_date := none
  , genre_ids := some [35], vote_average := none, vote_count := none
  , popularity := none, poster_path := none }

/-- The all-false signature (the extractor's result on empty text). -/
def emptySignature : Signature :=
  { anime := false, comedy := false, horror := false, mystery := false
  , trippy := false, underrated := false, badMovie := false }

/-- A concrete stand-in for `Math.log10` used by concrete witness
evaluations (the claims hold for every `L`). -/
def constLog : ℚ → ℚ := fun _ => 0

/-- Claim C4's intent-to-genre mapping (anime→16, comedy→35, horror→27,
mystery→9648), well defined whenever exactly one intent flag is set. -/
def matchingGenre (sig : Signature) : Int :=
  if sig.anime then genreAnimation
  else if sig.comedy then genreComedy
  else if sig.horror then genreHorror
  else if sig.mystery then genreMystery
  else 0

/-- The horror-only signature (e.g. from the query "a scary movie
tonight"). -/
def horrorSignature : Signature :=
  { anime := false, comedy := false, horror := true, mystery := false
  , trippy := false, underrated := false, badMovie := false }

/-- A concrete eligible horror candidate for witness runs. -/
def hMovie : Movie :=
  { id := 1, title := "H", overview := some "", release_date := some "1999-10-31"
  , genre_ids := some [27], vote_average := some 7, vote_count := some 300
  , popularity := some 5, poster_path := some "/h.jpg" }

/-- Twenty-five copies of the eligible horror candidate: a pool where
the single-genre restriction keeps at least 25 candidates. -/
def pool25 : List Movie := List.replicate 25 hMovie

/-- The card year exactly as claim C10 words it: `0` when the date is
absent, empty, or its first four characters fail to parse as a finite
number; otherwise that number. -/
def yearSpec : Option String → ℚ
  | none => 0
  | some d =>
    match jsToNumber (jsSlice4 d) with
    | some y => y
    | none => 0

/-- The score-ranked candidate list of one pipeline run (the `ranked`
local of the POST handler, as a function of the request pieces). -/
def rankedPipeline (L : ℚ → ℚ) (q : String) (likes passes : List String)
    (merged : List Movie) : List Movie :=
  rankedOf L (makeSignature q) (likeCountOf merged likes)
    (likeCountOf merged passes)
    (filteredOf (makeSignature q)
      (candidatesOf (makeSignature q) merged likes passes))

end WTW

namespace WTW

/-! ## Permutation lemmas for the shuffle -/

/-- Setting an index to its own element is the identity. -/
theorem set_self_eq {α : Type} :
    ∀ (l : List α) (i : Nat) (h : i < l.length), l.set i l[i] = l := by
  intro l
  induction l with
  | nil => intro i h; simp at h
  | cons a t ih =>
    intro i h
    cases i with
    | zero => simp
    | succ n =>
      simp only [List.set_cons_succ, List.getElem_cons_succ]
      rw [ih n (by simpa using h)]

/-- Moving an element out of a list while writing another into its
place is a permutation of consing. -/
theorem get_cons_set_perm {α : Type} :
    ∀ (t : List α) (m : Nat) (h : m < t.length) (a : α),
      (t[m] :: t.set m a).Perm (a :: t) := by
  intro t
  induction t with
  | nil => intro m h; simp at h
  | cons b t' ih =>
    intro m h a
    cases m with
    | zero => simpa using List.Perm.swap a b t'
    | succ n =>
      have h' : n < t'.length := by simpa using h
      simp only [List.getElem_cons_succ, List.set_cons_succ]
      exact (List.Perm.swap b (t'[n]) (t'.set n a)).trans
        ((List.Perm.cons b (ih n h' a)).trans (List.Perm.swap a b t'))

end WTW

namespace WTW

/-- Swapping two in-range positions via two `set`s permutes the list
(case of strictly increasing indices). -/
theorem set_swap_perm_lt {α : Type} :
    ∀ (l : List α) (i j : Nat), i < j → ∀ (hj : j < l.length) (hi : i < l.length),
      ((l.set i l[j]).set j l[i]).Perm l := by
  intro l
  induction l with
  | nil => intro i j _ hj; simp at hj
  | cons a t ih =>
    intro i j hij hj hi
    cases i with
    | zero =>
      cases j with
      | zero => omega
      | succ n =>
        have h' : n < t.length := by simpa using hj
        simpa using get_cons_set_perm t n h' a
    | succ i' =>
      cases j with
      | zero => omega
      | succ j' =>
        have hj' : j' < t.length := by simpa using hj
        have hi' : i' < t.length := by simpa using hi
        simpa using List.Perm.cons a (ih i' j' (by omega) hj' hi')

/-- The JS destructuring swap is a permutation, for any indices. -/
theorem swapL_perm {α : Type} (l : List α) (i j : Nat) : (swapL l i j).Perm l := by
  unfold swapL
  cases hi : l[i]? with
  | none => exact List.Perm.refl l
  | some a =>
    cases hj : l[j]? with
    | none => exact List.Perm.refl l
    | some b =>
      obtain ⟨hil, ha⟩ := List.getElem?_eq_some_iff.1 hi
      obtain ⟨hjl, hb⟩ := List.getElem?_eq_some_iff.1 hj
      subst ha hb
      show ((l.set i l[j]).set j l[i]).Perm l
      rcases Nat.lt_trichotomy i j with h | h | h
      · exact set_swap_perm_lt l i j h hjl hil
      · subst h
        rw [List.set_set, set_self_eq l i hil]
      · rw [List.set_comm _ _ _ (by omega)]
        exact set_swap_perm_lt l j i h hil hjl

/-- Each Fisher–Yates pass returns a permutation of its input. -/
theorem fyAux_perm {α : Type} :
    ∀ (i : Nat) (l : List α) (st : Nat), ((fyAux l st i).1).Perm l := by
  intro i
  induction i with
  | zero => intro l st; exact List.Perm.refl l
  | succ k ih =>
    intro l st
    exact (ih _ _).trans (swapL_perm l (k + 1) _)

/-- The modelled `shuffleInPlace` permutes its input. -/
theorem shuffleInPlace_perm {α : Type} (l : List α) (st : Nat) :
    ((shuffleInPlace l st).1).Perm l :=
  fyAux_perm (l.length - 1) l st

/-- Shuffling preserves length. -/
theorem shuffleInPlace_length {α : Type} (l : List α) (st : Nat) :
    (shuffleInPlace l st).1.length = l.length :=
  (shuffleInPlace_perm l st).length_eq

/-! ## Permutation lemmas for the stable sort -/

/-- Stable insertion permutes with consing. -/
theorem insertDesc_perm (x : Movie × ℚ) :
    ∀ (l : List (Movie × ℚ)), (insertDesc x l).Perm (x :: l) := by
  intro l
  induction l with
  | nil => exact List.Perm.refl [x]
  | cons y ys ih =>
    unfold insertDesc
    split
    · exact (List.Perm.cons y ih).trans (List.Perm.swap x y ys)
    · exact List.Perm.refl _

/-- The insertion fold permutes with appending. -/
theorem foldl_insertDesc_perm :
    ∀ (l acc : List (Movie × ℚ)),
      (l.foldl (fun acc x => insertDesc x acc) acc).Perm (acc ++ l) := by
  intro l
  induction l with
  | nil => intro acc; simp
  | cons x xs ih =>
    intro acc
    refine (ih (insertDesc x acc)).trans ?_
    refine (List.Perm.append_right xs (insertDesc_perm x acc)).trans ?_
    exact List.perm_middle.symm

/-- The stable descending sort permutes its input. -/
theorem sortDesc_perm (l : List (Movie × ℚ)) : (sortDesc l).Perm l := by
  simpa using foldl_insertDesc_perm l []

/-- The ranked list is a permutation of the pool it ranks. -/
theorem rankedOf_perm (L : ℚ → ℚ) (sig : Signature) (lc pc : Int → Nat)
    (pool : List Movie) : (rankedOf L sig lc pc pool).Perm pool := by
  have h := (sortDesc_perm
    (pool.map (fun m => (m, scoreMovie L m sig lc pc)))).map Prod.fst
  rw [List.map_map] at h
  have e : (Prod.fst ∘ fun m : Movie => (m, scoreMovie L m sig lc pc)) =
      fun m : Movie => m := rfl
  rw [e] at h
  simpa using h

end WTW

namespace WTW

/-! ## Dedup and filter facts -/

/-- One `Map.set` step keeps the id list duplicate-free. -/
theorem insertById_ids_nodup (acc : List Movie) (m : Movie)
    (h : (acc.map Movie.id).Nodup) : ((insertById acc m).map Movie.id).Nodup := by
  unfold insertById
  split
  · have e : (acc.map (fun x => if x.id == m.id then m else x)).map Movie.id =
        acc.map Movie.id := by
      rw [List.map_map]
      apply List.map_congr_left
      intro x _
      by_cases hxm : x.id = m.id
      · simp [Function.comp, hxm]
      · simp [Function.comp, hxm]
    rw [e]
    exact h
  · rename_i hnotin
    rw [List.map_append]
    rw [List.nodup_append]
    refine ⟨h, by simp, ?_⟩
    intro a ha
    simp only [List.map_cons, List.map_nil, List.mem_cons, List.not_mem_nil,
      or_false] at *
    intro ham
    apply hnotin
    rw [List.any_eq_true]
    obtain ⟨x, hx, hxa⟩ := List.mem_map.1 ha
    exact ⟨x, hx, by simp [hxa, ham]⟩

/-- The dedup fold keeps ids duplicate-free from any clean start. -/
theorem foldl_insertById_nodup :
    ∀ (ms acc : List Movie), (acc.map Movie.id).Nodup →
      ((ms.foldl insertById acc).map Movie.id).Nodup := by
  intro ms
  induction ms with
  | nil => intro acc h; exact h
  | cons m ms ih => intro acc h; exact ih _ (insertById_ids_nodup acc m h)

/-- The deduped merged pool has pairwise distinct ids. -/
theorem dedupeById_ids_nodup (ms : List Movie) :
    ((dedupeById ms).map Movie.id).Nodup :=
  foldl_insertById_nodup ms [] (by simp)

/-- A sublist keeps distinct ids distinct. -/
theorem ids_nodup_of_sublist {l₁ l₂ : List Movie} (h : l₁.Sublist l₂)
    (h₂ : (l₂.map Movie.id).Nodup) : (l₁.map Movie.id).Nodup :=
  (h.map Movie.id).nodup h₂

/-- A permutation transports distinct ids. -/
theorem ids_nodup_of_perm {l₁ l₂ : List Movie} (h : l₁.Perm l₂)
    (h₂ : (l₂.map Movie.id).Nodup) : (l₁.map Movie.id).Nodup :=
  ((h.map Movie.id).nodup_iff).2 h₂

/-- The hygiene-filtered candidates have pairwise distinct ids. -/
theorem candidatesOf_ids_nodup (sig : Signature) (merged : List Movie)
    (likes passes : List String) :
    ((candidatesOf sig merged likes passes).map Movie.id).Nodup := by
  unfold candidatesOf
  exact ids_nodup_of_sublist
    ((List.filter_sublist _).trans ((List.filter_sublist _).trans
      ((List.filter_sublist _).trans (List.filter_sublist _))))
    (dedupeById_ids_nodup merged)

/-- The genre restriction is a sublist of its input. -/
theorem genreRestrict_sublist (sig : Signature) (cands : List Movie) :
    (genreRestrict sig cands).Sublist cands := by
  unfold genreRestrict
  have step : ∀ (p : Movie → Bool) (b : Bool) (l : List Movie),
      (if b then l.filter p else l).Sublist l := by
    intro p b l
    cases b
    · simp
    · simp only [if_true]
      exact List.filter_sublist l
  exact ((step _ sig.anime _).trans ((step _ sig.mystery _).trans
    ((step _ sig.horror _).trans (step _ sig.comedy _))))

/-- The ranked pool is a sublist of the hygiene-filtered candidates. -/
theorem filteredOf_sublist (sig : Signature) (cands : List Movie) :
    (filteredOf sig cands).Sublist cands := by
  unfold filteredOf
  split
  · show (if (genreRestrict sig cands).length < 25 then cands
        else genreRestrict sig cands).Sublist cands
    split
    · exact List.Sublist.refl cands
    · exact genreRestrict_sublist sig cands
  · exact List.Sublist.refl cands

/-! ## Top-up loop facts -/

/-- Everything the top-up loop returns came from the picked list or the
ranked list it walks. -/
theorem topUpAux_subset :
    ∀ (rest picked : List Movie) (seen : List Int) (x : Movie),
      x ∈ topUpAux rest picked seen → x ∈ picked ∨ x ∈ rest := by
  intro rest
  induction rest with
  | nil => intro picked seen x hx; exact Or.inl hx
  | cons m ms ih =>
    intro picked seen x hx
    unfold topUpAux at hx
    split at hx
    · exact Or.inl hx
    · split at hx
      · rcases ih _ _ _ hx with h | h
        · exact Or.inl h
        · exact Or.inr (List.mem_cons_of_mem m h)
      · rcases ih _ _ _ hx with h | h
        · rcases List.mem_append.1 h with h' | h'
          · exact Or.inl h'
          · simp only [List.mem_singleton] at h'
            exact Or.inr (h' ▸ List.mem_cons_self m ms)
        · exact Or.inr (List.mem_cons_of_mem m h)

end WTW

namespace WTW

/-- The top-up loop stops at 10 (or when the ranked list is exhausted):
its result length is `min 10` of the picks plus the unseen remainder. -/
theorem topUpAux_length :
    ∀ (rest picked : List Movie) (seen : List Int),
      picked.length ≤ 10 →
      (rest.map Movie.id).Nodup →
      (topUpAux rest picked seen).length =
        min 10 (picked.length +
          (rest.filter (fun m => !(seen.contains m.id))).length) := by
  intro rest
  induction rest with
  | nil =>
    intro picked seen hlen _
    show picked.length = _
    simp only [List.filter_nil, List.length_nil, Nat.add_zero]
    omega
  | cons m ms ih =>
    intro picked seen hlen hnd
    rw [List.map_cons, List.nodup_cons] at hnd
    unfold topUpAux
    split
    · rename_i h10
      omega
    · rename_i h10
      have hlt : picked.length < 10 := by omega
      by_cases hm : seen.contains m.id = true
      · rw [if_pos hm]
        rw [ih picked seen hlen hnd.2]
        rw [List.filter_cons]
        rw [if_neg (by simpa using hm)]
      · rw [if_neg hm]
        rw [ih (picked ++ [m]) (m.id :: seen) (by simp; omega) hnd.2]
        have e : ms.filter (fun x => !((m.id :: seen).contains x.id)) =
            ms.filter (fun x => !(seen.contains x.id)) := by
          apply List.filter_congr
          intro x hx
          have hne : x.id ≠ m.id := by
            intro heq
            exact hnd.1 (heq ▸ List.mem_map_of_mem Movie.id hx)
          simp [List.contains_cons, hne]
        rw [e, List.filter_cons]
        rw [if_pos (by simpa using hm)]
        simp only [List.length_append, List.length_cons, List.length_nil]
        omega

end WTW

namespace WTW

/-- The top-up loop keeps card ids duplicate-free. -/
theorem topUpAux_ids_nodup :
    ∀ (rest picked : List Movie) (seen : List Int),
      (picked.map Movie.id).Nodup →
      (∀ x : Int, x ∈ seen ↔ x ∈ picked.map Movie.id) →
      ((topUpAux rest picked seen).map Movie.id).Nodup := by
  intro rest
  induction rest with
  | nil => intro picked seen h _; exact h
  | cons m ms ih =>
    intro picked seen h hseen
    unfold topUpAux
    split
    · exact h
    · by_cases hm : seen.contains m.id = true
      · rw [if_pos hm]
        exact ih picked seen h hseen
      · rw [if_neg hm]
        replace hm : m.id ∉ seen := by simpa using hm
        apply ih
        · rw [List.map_append, List.nodup_append]
          refine ⟨h, by simp, ?_⟩
          intro a ha hmem
          simp only [List.map_cons, List.map_nil, List.mem_cons,
            List.not_mem_nil, or_false] at hmem
          exact hm ((hseen m.id).2 (hmem ▸ ha))
        · intro x
          simp only [List.map_append, List.mem_cons, List.mem_append,
            List.map_cons, List.map_nil, List.mem_singleton]
          rw [hseen x]
          tauto

/-- Counting a duplicate-free sublist inside a duplicate-free list by a
membership filter recovers its length. -/
theorem length_filter_contains (A S : List Int) (hA : A.Nodup) (hS : S.Nodup)
    (hsub : ∀ x ∈ S, x ∈ A) :
    (A.filter (fun a => S.contains a)).length = S.length := by
  have h1 : S.Subperm (A.filter (fun a => S.contains a)) := by
    apply List.subperm_of_subset hS
    intro x hx
    rw [List.mem_filter]
    exact ⟨hsub x hx, by simpa using hx⟩
  have h2 : (A.filter (fun a => S.contains a)).Subperm S := by
    apply List.subperm_of_subset (hA.filter _)
    intro x hx
    rw [List.mem_filter] at hx
    simpa using hx.2
  exact (h2.antisymm h1).length_eq

/-- Complement count of the previous lemma. -/
theorem length_filter_not_contains (A S : List Int) (hA : A.Nodup)
    (hS : S.Nodup) (hsub : ∀ x ∈ S, x ∈ A) :
    (A.filter (fun a => !(S.contains a))).length = A.length - S.length := by
  have h := List.length_eq_length_filter_add (l := A) (fun a => S.contains a)
  rw [length_filter_contains A S hA hS hsub] at h
  omega

/-- Movie-level version: filtering the ranked list down to the ids not
already picked leaves exactly the un-picked remainder. -/
theorem length_filter_not_picked (R P : List Movie)
    (hR : (R.map Movie.id).Nodup) (hP : (P.map Movie.id).Nodup)
    (hsub : ∀ x ∈ P.map Movie.id, x ∈ R.map Movie.id) :
    (R.filter (fun m => !((P.map Movie.id).contains m.id))).length =
      R.length - P.length := by
  have e := List.filter_map (p := fun a => !((P.map Movie.id).contains a))
    Movie.id R
  have e2 : ((fun a => !((P.map Movie.id).contains a)) ∘ Movie.id) =
      fun m : Movie => !((P.map Movie.id).contains m.id) := rfl
  rw [e2] at e
  have e3 := congrArg List.length e
  rw [List.length_map] at e3
  rw [← e3]
  rw [length_filter_not_contains (R.map Movie.id) (P.map Movie.id) hR hP hsub]
  simp

end WTW

namespace WTW

/-- The assembler is the initial pick, topped up when short, capped at
ten. -/
theorem assembleDeck_eq (ranked : List Movie) (seed : Nat) :
    assembleDeck ranked seed =
      (if (pickedInit ranked seed).length < 10 then
        topUpAux ranked (pickedInit ranked seed)
          ((pickedInit ranked seed).map Movie.id)
      else pickedInit ranked seed).take 10 := rfl

/-- Every initially picked movie comes from the ranked list. -/
theorem pickedInit_subset (ranked : List Movie) (seed : Nat) :
    ∀ x ∈ pickedInit ranked seed, x ∈ ranked := by
  intro x hx
  rcases List.mem_append.1 hx with h | h
  · have h1 := (List.take_sublist 6 _).subset h
    have h2 := (shuffleInPlace_perm (ranked.take 60) seed).mem_iff.1 h1
    exact (List.take_sublist 60 ranked).subset h2
  · have h1 := (List.take_sublist 4 _).subset h
    have h2 := (shuffleInPlace_perm _ _).mem_iff.1 h1
    have h3 := (List.take_sublist 160 _).subset h2
    exact (List.drop_sublist 60 ranked).subset h3

/-- The initial pick has pairwise distinct ids (its two buckets are
disjoint rank ranges of a duplicate-free list). -/
theorem pickedInit_ids_nodup (ranked : List Movie) (seed : Nat)
    (hn : (ranked.map Movie.id).Nodup) :
    ((pickedInit ranked seed).map Movie.id).Nodup := by
  have hTD : ranked.map Movie.id =
      (ranked.take 60).map Movie.id ++ (ranked.drop 60).map Movie.id := by
    rw [← List.map_append, List.take_append_drop]
  rw [hTD, List.nodup_append] at hn
  obtain ⟨hT, hD, hdisj⟩ := hn
  have hM : (((ranked.drop 60).take 160).map Movie.id).Nodup :=
    ids_nodup_of_sublist (List.take_sublist _ _) hD
  have hTop : ((shuffleInPlace (ranked.take 60) seed).1.map Movie.id).Nodup :=
    ids_nodup_of_perm (shuffleInPlace_perm _ _) hT
  have hMid : ((shuffleInPlace ((ranked.drop 60).take 160)
      (shuffleInPlace (ranked.take 60) seed).2).1.map Movie.id).Nodup :=
    ids_nodup_of_perm (shuffleInPlace_perm _ _) hM
  rw [pickedInit, List.map_append, List.nodup_append]
  refine ⟨ids_nodup_of_sublist (List.take_sublist _ _) hTop,
    ids_nodup_of_sublist (List.take_sublist _ _) hMid, ?_⟩
  intro a ha hb
  have haT : a ∈ (ranked.take 60).map Movie.id := by
    obtain ⟨x, hx, hxa⟩ := List.mem_map.1 ha
    have h1 := (List.take_sublist 6 _).subset hx
    have h2 := (shuffleInPlace_perm _ _).mem_iff.1 h1
    exact hxa ▸ List.mem_map_of_mem Movie.id h2
  have haD : a ∈ (ranked.drop 60).map Movie.id := by
    obtain ⟨x, hx, hxa⟩ := List.mem_map.1 hb
    have h1 := (List.take_sublist 4 _).subset hx
    have h2 := (shuffleInPlace_perm _ _).mem_iff.1 h1
    have h3 := (List.take_sublist 160 _).subset h2
    exact hxa ▸ List.mem_map_of_mem Movie.id h3
  exact hdisj haT haD

/-- Length of the initial pick in terms of the ranked pool size. -/
theorem pickedInit_length (ranked : List Movie) (seed : Nat) :
    (pickedInit ranked seed).length =
      min 6 (min 60 ranked.length) + min 4 (min 160 (ranked.length - 60)) := by
  unfold pickedInit
  rw [List.length_append, List.length_take, shuffleInPlace_length,
    List.length_take, List.length_take, shuffleInPlace_length,
    List.length_take, List.length_drop]

/-- Everything in the assembled deck comes from the ranked list. -/
theorem assembleDeck_subset (ranked : List Movie) (seed : Nat) :
    ∀ x ∈ assembleDeck ranked seed, x ∈ ranked := by
  intro x hx
  rw [assembleDeck_eq] at hx
  have hx1 := (List.take_sublist 10 _).subset hx
  split at hx1
  · rcases topUpAux_subset _ _ _ _ hx1 with h | h
    · exact pickedInit_subset ranked seed x h
    · exact h
  · exact pickedInit_subset ranked seed x hx1

/-- The assembled deck has pairwise distinct ids. -/
theorem assembleDeck_ids_nodup (ranked : List Movie) (seed : Nat)
    (hn : (ranked.map Movie.id).Nodup) :
    ((assembleDeck ranked seed).map Movie.id).Nodup := by
  rw [assembleDeck_eq]
  apply ids_nodup_of_sublist (List.take_sublist 10 _)
  split
  · exact topUpAux_ids_nodup ranked _ _ (pickedInit_ids_nodup ranked seed hn)
      (fun x => Iff.rfl)
  · exact pickedInit_ids_nodup ranked seed hn

/-- The assembled deck length is exactly `min 10` of the ranked pool
size. -/
theorem assembleDeck_length (ranked : List Movie) (seed : Nat)
    (hn : (ranked.map Movie.id).Nodup) :
    (assembleDeck ranked seed).length = min 10 ranked.length := by
  rw [assembleDeck_eq]
  have hplen := pickedInit_length ranked seed
  by_cases h : (pickedInit ranked seed).length < 10
  · rw [if_pos h, List.length_take]
    rw [topUpAux_length ranked (pickedInit ranked seed) _ (by omega) hn]
    have hsub : ∀ x ∈ (pickedInit ranked seed).map Movie.id,
        x ∈ ranked.map Movie.id := by
      intro x hx
      obtain ⟨m, hm, hmx⟩ := List.mem_map.1 hx
      exact hmx ▸ List.mem_map_of_mem Movie.id
        (pickedInit_subset ranked seed m hm)
    rw [length_filter_not_picked ranked (pickedInit ranked seed) hn
      (pickedInit_ids_nodup ranked seed hn) hsub]
    omega
  · rw [if_neg h, List.length_take]
    omega

end WTW

namespace WTW

/-! ## Scorer facts (claims C2 and C3) -/

/-- Folding the taste-shaping loop is adding the per-genre sum. -/
theorem foldl_weight_sum (lc pc : Int → Nat) :
    ∀ (gs : List Int) (s : ℚ),
      gs.foldl (fun acc g => acc + (lc g : ℚ) * 2 - (pc g : ℚ) * 1) s =
        s + (gs.map (fun g => (lc g : ℚ) * 2 - (pc g : ℚ) * 1)).sum := by
  intro gs
  induction gs with
  | nil => intro s; simp
  | cons g gs ih =>
    intro s
    rw [List.foldl_cons, ih, List.map_cons, List.sum_cons]
    ring

end WTW

namespace WTW

end WTW

namespace WTW

/-- The genre-weight count distributes over slice concatenation: each
occurrence of a kept candidate counts, with multiplicity. -/
theorem likeCountOf_append (p1 p2 : List Movie) (keptIds : List String)
    (g : Int) :
    likeCountOf (p1 ++ p2) keptIds g =
      likeCountOf p1 keptIds g + likeCountOf p2 keptIds g := by
  unfold likeCountOf
  rw [List.filter_append, List.map_append, List.sum_append]

/-- The genre-weight count of a single candidate. -/
theorem likeCountOf_singleton (m : Movie) (keptIds : List String) (g : Int) :
    likeCountOf [m] keptIds g =
      if keptIds.contains (toString m.id) then
        (m.genre_ids.getD []).count g
      else 0 := by
  unfold likeCountOf
  by_cases h : toString m.id ∈ keptIds
  · have hb : keptIds.contains (toString m.id) = true := by simpa using h
    simp [List.filter_cons, hb, h]
  · have hb : keptIds.contains (toString m.id) = false := by simpa using h
    simp [List.filter_cons, hb, h]

/-- Summing an indicator map counts occurrences. -/
theorem sum_map_ite (g : Int) (c : ℚ) :
    ∀ gs : List Int,
      (gs.map (fun x => if x = g then c else 0)).sum = (gs.count g : ℚ) * c := by
  intro gs
  induction gs with
  | nil => simp
  | cons x gs ih =>
    rw [List.map_cons, List.sum_cons, ih, List.count_cons]
    by_cases h : x = g
    · simp only [h, if_true, if_pos, beq_self_eq_true]
      push_cast
      ring
    · have hb : (x == g) = false := by simpa using h
      simp only [h, if_false, hb, if_neg]
      push_cast
      ring

/-- Changing only the weight maps moves the spec score by the
difference of the two taste-shaping sums. -/
theorem scoreSpec_weights_diff (L : ℚ → ℚ) (m : Movie) (sig : Signature)
    (lc pc lc' pc' : Int → Nat) :
    scoreSpec L m sig lc pc - scoreSpec L m sig lc' pc' =
      ((m.genre_ids.getD []).map
          (fun g => 2 * (lc g : ℚ) - 1 * (pc g : ℚ))).sum -
        ((m.genre_ids.getD []).map
          (fun g => 2 * (lc' g : ℚ) - 1 * (pc' g : ℚ))).sum := by
  unfold scoreSpec
  dsimp only
  ring

/-- The scorer as one additive sum (content of claim C2, shared by the
other scorer facts). -/
theorem scoreMovie_eq_scoreSpec (L : ℚ → ℚ) (m : Movie) (sig : Signature)
    (likeCounts passCounts : Int → Nat) :
    scoreMovie L m sig likeCounts passCounts =
      scoreSpec L m sig likeCounts passCounts := by
  unfold scoreMovie scoreSpec genreComedy genreHorror genreMystery
    genreAnimation
  dsimp only
  rw [foldl_weight_sum]
  have e : (fun g => (likeCounts g : ℚ) * 2 - (passCounts g : ℚ) * 1) =
      fun g => 2 * (likeCounts g : ℚ) - 1 * (passCounts g : ℚ) := by
    funext g
    ring
  rw [e]
  have emax : (30 : ℚ) - L (m.popularity.getD 0 + 1) * 10 =
      30 - 10 * L (m.popularity.getD 0 + 1) := by ring
  rw [emax]
  generalize (sig.comedy && (m.genre_ids.getD []).contains 35) = b1
  generalize (sig.horror && (m.genre_ids.getD []).contains 27) = b2
  generalize (sig.mystery && (m.genre_ids.getD []).contains 9648) = b3
  generalize (sig.anime && (m.genre_ids.getD []).contains 16) = b4
  generalize (sig.trippy &&
    (strIncludes (jsToLowerCase (m.overview.getD "")) "surreal" ||
      strIncludes (jsToLowerCase (m.overview.getD "")) "psychedelic" ||
      strIncludes (jsToLowerCase (m.overview.getD "")) "strange")) = b5
  generalize L (m.vote_count.getD 0 + 1) = q1
  generalize L (m.popularity.getD 0 + 1) = q2
  generalize (m.vote_average.getD 0 : ℚ) = va
  generalize ((m.genre_ids.getD []).map
    (fun g => 2 * (likeCounts g : ℚ) - 1 * (passCounts g : ℚ))).sum = tail
  cases b1 <;> cases b2 <;> cases b3 <;> cases b4 <;> cases b5 <;>
    cases sig.underrated <;> cases sig.badMovie <;>
    simp only [if_true, if_false, Bool.false_eq_true, Bool.true_eq_false,
      ite_true, ite_false, if_neg, if_pos] <;>
    ring

/-- Three keep-occurrences of a genre and no passes add exactly six to
the score of a candidate tagged once with that genre. -/
theorem scoreMovie_like3_plus6 (L : ℚ → ℚ) (m : Movie) (sig : Signature)
    (g : Int) (h : (m.genre_ids.getD []).count g = 1) :
    scoreMovie L m sig (fun x => if x = g then 3 else 0) (fun _ => 0) =
      scoreMovie L m sig (fun _ => 0) (fun _ => 0) + 6 := by
  rw [scoreMovie_eq_scoreSpec, scoreMovie_eq_scoreSpec]
  have hdiff := scoreSpec_weights_diff L m sig
    (fun x => if x = g then 3 else 0) (fun _ => 0) (fun _ => 0) (fun _ => 0)
  have e1 : ((m.genre_ids.getD []).map
      (fun x => 2 * ((if x = g then (3 : Nat) else 0 : Nat) : ℚ) -
        1 * ((0 : Nat) : ℚ))).sum = 6 := by
    have ecg : ((m.genre_ids.getD []).map
        (fun x => 2 * ((if x = g then (3 : Nat) else 0 : Nat) : ℚ) -
          1 * ((0 : Nat) : ℚ))) =
        ((m.genre_ids.getD []).map (fun x => if x = g then (6 : ℚ) else 0)) := by
      apply List.map_congr_left
      intro x _
      by_cases hx : x = g
      · simp only [hx, if_true, if_pos]
        norm_num
      · simp only [hx, if_false, if_neg]
        norm_num
    rw [ecg, sum_map_ite, h]
    norm_num
  have e2 : ((m.genre_ids.getD []).map
      (fun x => 2 * ((0 : Nat) : ℚ) - 1 * ((0 : Nat) : ℚ))).sum = 0 := by
    have ecg : ((m.genre_ids.getD []).map
        (fun x => 2 * ((0 : Nat) : ℚ) - 1 * ((0 : Nat) : ℚ))) =
        ((m.genre_ids.getD []).map (fun x => if x = g then (0 : ℚ) else 0)) := by
      apply List.map_congr_left
      intro x _
      by_cases hx : x = g
      · simp [hx]
      · simp [hx]
    rw [ecg, sum_map_ite]
    ring
  rw [e1, e2] at hdiff
  linarith

end WTW

namespace WTW

/-- C2: for every candidate, intent signature, and pair of weight maps
(and every log₁₀ model `L`), the scorer returns exactly the additive sum
2·voteAverage + 3·log10(voteCount+1), plus 18 for comedy∧35, 18 for
horror∧27, 14 for mystery∧9648, 10 for anime∧16, plus
max(0, 30 − 10·log10(popularity+1)) if underrated, plus
(−2·voteAverage + 2·log10(popularity+1)) if badMovie, plus 6 if trippy
and the lower-cased overview contains "surreal", "psychedelic" or
"strange", plus Σ over the genre tags of 2·likeCount − 1·passCount —
with no normalization, as a pure function of those inputs only. -/
theorem claim_C2_scorer_formula (L : ℚ → ℚ) (m : Movie) (sig : Signature)
    (likeCounts passCounts : Int → Nat) :
    scoreMovie L m sig likeCounts passCounts =
      scoreSpec L m sig likeCounts passCounts :=
  scoreMovie_eq_scoreSpec L m sig likeCounts passCounts

end WTW

namespace WTW

/-! ## Injectivity of the decimal id string (`String(m.id)`) -/

/-- Big-endian decimal digit characters of a natural number (the list
`Nat.repr` produces). -/
def decChars (n : Nat) : List Char :=
  if _h : n < 10 then [Nat.digitChar n]
  else decChars (n / 10) ++ [Nat.digitChar (n % 10)]
decreasing_by
  exact Nat.div_lt_self (by omega) (by omega)

/-- Decimal digit lists are never empty. -/
theorem decChars_ne_nil (n : Nat) : decChars n ≠ [] := by
  unfold decChars
  split
  · simp
  · simp

/-- Every character of a decimal digit list is a digit character. -/
theorem decChars_mem (n : Nat) : ∀ c ∈ decChars n, ∃ d, d < 10 ∧ c = Nat.digitChar d := by
  induction n using Nat.strong_induction_on with
  | _ n ih =>
    intro c hc
    unfold decChars at hc
    split at hc
    · rename_i h
      simp only [List.mem_singleton] at hc
      exact ⟨n, h, hc⟩
    · rename_i h
      rcases List.mem_append.1 hc with h1 | h1
      · exact ih (n / 10) (Nat.div_lt_self (by omega) (by omega)) c h1
      · simp only [List.mem_singleton] at h1
        exact ⟨n % 10, Nat.mod_lt n (by omega), h1⟩

/-- `Nat.digitChar` is injective below ten. -/
theorem digitChar_inj_lt10 :
    ∀ a, a < 10 → ∀ b, b < 10 → Nat.digitChar a = Nat.digitChar b → a = b := by
  decide

/-- Digit characters are never the minus sign. -/
theorem digitChar_ne_dash : ∀ d, d < 10 → Nat.digitChar d ≠ '-' := by
  decide

/-- `Nat.toDigitsCore` with enough fuel computes the decimal digits. -/
theorem toDigitsCore_eq_decChars :
    ∀ (fuel n : Nat) (ds : List Char), 0 < fuel → n < 10 ^ fuel →
      Nat.toDigitsCore 10 fuel n ds = decChars n ++ ds := by
  intro fuel
  induction fuel with
  | zero => intro n ds h; omega
  | succ f ih =>
    intro n ds _ hlt
    simp only [Nat.toDigitsCore]
    by_cases h0 : n / 10 = 0
    · rw [if_pos h0]
      have hn : n < 10 := by omega
      unfold decChars
      rw [dif_pos hn]
      rw [Nat.mod_eq_of_lt hn]
      rfl
    · rw [if_neg h0]
      have hf : 0 < f := by
        rcases Nat.eq_zero_or_pos f with rfl | hf
        · simp at hlt
          omega
        · exact hf
      have hdiv : n / 10 < 10 ^ f := by
        rw [Nat.div_lt_iff_lt_mul (by omega)]
        calc n < 10 ^ (f + 1) := hlt
          _ = 10 ^ f * 10 := by rw [Nat.pow_succ]
      rw [ih (n / 10) (Nat.digitChar (n % 10) :: ds) hf hdiv]
      conv_rhs =>
        rw [decChars]
      rw [dif_neg (by omega)]
      simp

/-- The characters of `Nat.repr` are the decimal digits. -/
theorem natRepr_data (n : Nat) : (Nat.repr n).data = decChars n := by
  show ((Nat.toDigitsCore 10 (n + 1) n []).asString).data = decChars n
  rw [toDigitsCore_eq_decChars (n + 1) n [] (by omega) ?_]
  · simp [List.asString]
  · calc n < 10 ^ n := Nat.lt_pow_self (by omega) n
      _ ≤ 10 ^ (n + 1) := Nat.pow_le_pow_right (by omega) (by omega)

/-- Decimal digit lists distinguish their numbers. -/
theorem decChars_inj : ∀ a b : Nat, decChars a = decChars b → a = b := by
  intro a
  induction a using Nat.strong_induction_on with
  | _ a ih =>
    intro b h
    by_cases ha : a < 10
    · by_cases hb : b < 10
      · unfold decChars at h
        rw [dif_pos ha, dif_pos hb] at h
        simp only [List.cons.injEq, and_true] at h
        exact digitChar_inj_lt10 a ha b hb h
      · exfalso
        unfold decChars at h
        rw [dif_pos ha, dif_neg hb] at h
        have := congrArg List.length h
        simp only [List.length_singleton, List.length_append,
          List.length_cons, List.length_nil] at this
        have hne := decChars_ne_nil (b / 10)
        cases hd : decChars (b / 10) with
        | nil => exact hne hd
        | cons x xs =>
          rw [hd] at this
          simp at this
    · by_cases hb : b < 10
      · exfalso
        unfold decChars at h
        rw [dif_neg ha, dif_pos hb] at h
        have := congrArg List.length h
        simp only [List.length_singleton, List.length_append,
          List.length_cons, List.length_nil] at this
        have hne := decChars_ne_nil (a / 10)
        cases hd : decChars (a / 10) with
        | nil => exact hne hd
        | cons x xs =>
          rw [hd] at this
          simp at this
      · unfold decChars at h
        rw [dif_neg ha, dif_neg hb] at h
        have h' := congrArg List.reverse h
        simp only [List.reverse_append, List.reverse_singleton,
          List.singleton_append, List.cons.injEq] at h'
        obtain ⟨hdig, hrev⟩ := h'
        have htails : decChars (a / 10) = decChars (b / 10) :=
          List.reverse_injective hrev
        have hquot := ih (a / 10) (Nat.div_lt_self (by omega) (by omega))
          (b / 10) htails
        have hmod := digitChar_inj_lt10 (a % 10) (Nat.mod_lt a (by omega))
          (b % 10) (Nat.mod_lt b (by omega)) hdig
        omega

/-- The decimal string of an integer identifies it (`String(m.id)` is
injective). -/
theorem intToString_inj : Function.Injective (fun i : Int => toString i) := by
  intro a b h
  have hd : (toString a).data = (toString b).data := congrArg String.data h
  match a, b with
  | Int.ofNat m, Int.ofNat m' =>
    have : decChars m = decChars m' := by
      simpa [toString, Int.repr, natRepr_data] using hd
    rw [decChars_inj m m' this]
  | Int.ofNat m, Int.negSucc m' =>
    exfalso
    have hd' : decChars m = '-' :: (Nat.repr (m' + 1)).data := by
      simpa [toString, Int.repr, natRepr_data, String.append] using hd
    have hmem : '-' ∈ decChars m := by
      rw [hd']
      exact List.mem_cons_self _ _
    obtain ⟨d, hdlt, hdc⟩ := decChars_mem m '-' hmem
    exact digitChar_ne_dash d hdlt hdc.symm
  | Int.negSucc m, Int.ofNat m' =>
    exfalso
    have hd' : '-' :: (Nat.repr (m + 1)).data = decChars m' := by
      simpa [toString, Int.repr, natRepr_data, String.append] using hd
    have hmem : '-' ∈ decChars m' := by
      rw [← hd']
      exact List.mem_cons_self _ _
    obtain ⟨d, hdlt, hdc⟩ := decChars_mem m' '-' hmem
    exact digitChar_ne_dash d hdlt hdc.symm
  | Int.negSucc m, Int.negSucc m' =>
    have hd' : decChars (m + 1) = decChars (m' + 1) := by
      simpa [toString, Int.repr, natRepr_data, String.append] using hd
    have hmm : m = m' := by
      have := decChars_inj (m + 1) (m' + 1) hd'
      omega
    rw [hmm]

end WTW

namespace WTW

/-! ## Pipeline-level facts -/

/-- Definitional decomposition of the picked movies: the assembled,
seed-shuffled ranking of the filtered candidate pool. -/
theorem pickedMovies_eq (L : ℚ → ℚ) (sid day : String) (reroll : Int)
    (q : String) (likes passes : List String) (s1 s2 s3 s4 : List Movie) :
    pickedMovies L sid day reroll q likes passes s1 s2 s3 s4 =
      assembleDeck
        (rankedOf L (makeSignature q)
          (likeCountOf (s1 ++ s2 ++ s3 ++ s4) likes)
          (likeCountOf (s1 ++ s2 ++ s3 ++ s4) passes)
          (filteredOf (makeSignature q)
            (candidatesOf (makeSignature q) (s1 ++ s2 ++ s3 ++ s4) likes
              passes)))
        (deckSeed sid day reroll) := rfl

/-- The ranked pool of a pipeline run has pairwise distinct ids. -/
theorem ranked_pipeline_ids_nodup (L : ℚ → ℚ) (q : String)
    (likes passes : List String) (merged : List Movie) :
    ((rankedOf L (makeSignature q) (likeCountOf merged likes)
      (likeCountOf merged passes)
      (filteredOf (makeSignature q)
        (candidatesOf (makeSignature q) merged likes passes))).map
          Movie.id).Nodup :=
  ids_nodup_of_perm (rankedOf_perm _ _ _ _ _)
    (ids_nodup_of_sublist (filteredOf_sublist _ _)
      (candidatesOf_ids_nodup _ _ _ _))

/-- Every picked movie survived the hygiene filters. -/
theorem pickedMovies_mem_candidates (L : ℚ → ℚ) (sid day : String)
    (reroll : Int) (q : String) (likes passes : List String)
    (s1 s2 s3 s4 : List Movie) (m : Movie)
    (hm : m ∈ pickedMovies L sid day reroll q likes passes s1 s2 s3 s4) :
    m ∈ candidatesOf (makeSignature q) (s1 ++ s2 ++ s3 ++ s4) likes passes := by
  rw [pickedMovies_eq] at hm
  have h1 := assembleDeck_subset _ _ m hm
  have h2 := (rankedOf_perm _ _ _ _ _).mem_iff.1 h1
  exact (filteredOf_sublist _ _).subset h2

/-- Reading the four hygiene filters back from membership. -/
theorem mem_candidatesOf (sig : Signature) (merged : List Movie)
    (likes passes : List String) (m : Movie)
    (hm : m ∈ candidatesOf sig merged likes passes) :
    isTruthyStr m.poster_path = true ∧
    (if sig.underrated then (50 : ℚ) else 200) ≤ m.vote_count.getD 0 ∧
    (sig.underrated = true → m.popularity.getD 0 ≤ 60) ∧
    toString m.id ∉ likes ∧ toString m.id ∉ passes := by
  unfold candidatesOf at hm
  dsimp only at hm
  rw [List.mem_filter] at hm
  obtain ⟨hm, hseen⟩ := hm
  rw [List.mem_filter] at hm
  obtain ⟨hm, hpop⟩ := hm
  rw [List.mem_filter] at hm
  obtain ⟨hm, hvote⟩ := hm
  rw [List.mem_filter] at hm
  obtain ⟨_, hposter⟩ := hm
  have hni : toString m.id ∉ likes ++ passes := by simpa using hseen
  refine ⟨hposter, by simpa using hvote, ?_, ?_, ?_⟩
  · intro hu
    rw [hu] at hpop
    simpa using hpop
  · intro hlike
    exact hni (List.mem_append.2 (Or.inl hlike))
  · intro hpass
    exact hni (List.mem_append.2 (Or.inr hpass))

/-- The single-genre revert keeps a pool of at least 25, so it never
changes whether at least 10 candidates exist. -/
theorem filteredOf_length_min (sig : Signature) (cands : List Movie) :
    min 10 (filteredOf sig cands).length = min 10 cands.length := by
  unfold filteredOf
  split
  · show min 10 (if (genreRestrict sig cands).length < 25 then cands
        else genreRestrict sig cands).length = _
    split
    · rfl
    · rename_i h25
      have hle : (genreRestrict sig cands).length ≤ cands.length :=
        (genreRestrict_sublist sig cands).length_le
      omega
  · rfl

end WTW

namespace WTW

/-- C6: for every request the returned deck has length exactly
`min 10 N`, where `N` is the number of unique eligible candidates after
the hygiene filters, and its card ids are pairwise distinct — so the
deck never exceeds 10 cards, a pool of exactly 7 eligible candidates
yields exactly 7 duplicate-free cards, and fewer than 10 cards are
returned only when the slice union has fewer than 10 eligible
candidates. -/
theorem claim_C6_deck_size (L : ℚ → ℚ) (sid day : String) (reroll : Int)
    (q : String) (likes passes : List String) (s1 s2 s3 s4 : List Movie) :
    (buildDeck L sid day reroll q likes passes s1 s2 s3 s4).length =
      min 10 (candidatesOf (makeSignature q) (s1 ++ s2 ++ s3 ++ s4) likes
        passes).length ∧
    ((buildDeck L sid day reroll q likes passes s1 s2 s3 s4).map
      DeckCard.id).Nodup := by
  have hrn := ranked_pipeline_ids_nodup L q likes passes (s1 ++ s2 ++ s3 ++ s4)
  constructor
  · have hbd : (buildDeck L sid day reroll q likes passes s1 s2 s3 s4).length =
        (pickedMovies L sid day reroll q likes passes s1 s2 s3 s4).length := by
      unfold buildDeck
      simp
    rw [hbd, pickedMovies_eq, assembleDeck_length _ _ hrn,
      (rankedOf_perm _ _ _ _ _).length_eq, filteredOf_length_min]
  · have hpn : ((pickedMovies L sid day reroll q likes passes s1 s2 s3
        s4).map Movie.id).Nodup := by
      rw [pickedMovies_eq]
      exact assembleDeck_ids_nodup _ _ hrn
    have e1 : (buildDeck L sid day reroll q likes passes s1 s2 s3 s4).map
        DeckCard.id =
        ((pickedMovies L sid day reroll q likes passes s1 s2 s3 s4).map
          Movie.id).map (fun i : Int => toString i) := by
      unfold buildDeck
      rw [List.map_map, List.map_map]
      rfl
    rw [e1]
    exact hpn.map intToString_inj

/-- C5: every returned card's underlying candidate has a non-empty
poster reference, has voteCount ≥ 50 when the underrated flag is set and
≥ 200 otherwise, has popularity ≤ 60 in underrated mode, and its id
appears in neither keptIds nor passedIds; at card level no returned id
appears in keptIds or passedIds — for every deck size and also when the
single-genre filter is reverted. -/
theorem claim_C5_hard_filters (L : ℚ → ℚ) (sid day : String) (reroll : Int)
    (q : String) (likes passes : List String) (s1 s2 s3 s4 : List Movie) :
    (∀ m ∈ pickedMovies L sid day reroll q likes passes s1 s2 s3 s4,
      isTruthyStr m.poster_path = true ∧
      ((makeSignature q).underrated = true →
        (50 : ℚ) ≤ m.vote_count.getD 0 ∧ m.popularity.getD 0 ≤ 60) ∧
      ((makeSignature q).underrated = false →
        (200 : ℚ) ≤ m.vote_count.getD 0) ∧
      toString m.id ∉ likes ∧ toString m.id ∉ passes) ∧
    (∀ c ∈ buildDeck L sid day reroll q likes passes s1 s2 s3 s4,
      c.id ∉ likes ∧ c.id ∉ passes) := by
  constructor
  · intro m hm
    obtain ⟨hp, hv, hpop, hl, hpa⟩ := mem_candidatesOf _ _ _ _ m
      (pickedMovies_mem_candidates L sid day reroll q likes passes
        s1 s2 s3 s4 m hm)
    refine ⟨hp, ?_, ?_, hl, hpa⟩
    · intro hu
      rw [hu] at hv
      exact ⟨by simpa using hv, hpop hu⟩
    · intro hu
      rw [hu] at hv
      simpa using hv
  · intro c hc
    unfold buildDeck at hc
    obtain ⟨m, hm, hcm⟩ := List.mem_map.1 hc
    obtain ⟨_, hv, hpop, hl, hpa⟩ := mem_candidatesOf _ _ _ _ m
      (pickedMovies_mem_candidates L sid day reroll q likes passes
        s1 s2 s3 s4 m hm)
    rw [← hcm]
    exact ⟨hl, hpa⟩

set_option maxRecDepth 8192 in
/-- Witness for C5: a concrete one-candidate run in which the picked
movie satisfies every hygiene property against non-empty feedback
lists. -/
theorem claim_C5_witness :
    (isTruthyStr hMovie.poster_path = true ∧
      ((makeSignature "").underrated = true →
        (50 : ℚ) ≤ hMovie.vote_count.getD 0 ∧
          hMovie.popularity.getD 0 ≤ 60) ∧
      ((makeSignature "").underrated = false →
        (200 : ℚ) ≤ hMovie.vote_count.getD 0) ∧
      toString hMovie.id ∉ ["99"] ∧ toString hMovie.id ∉ ["98"]) ∧
    ((toCard (makeSignature "") hMovie).id ∉ ["99"] ∧
      (toCard (makeSignature "") hMovie).id ∉ ["98"]) :=
  ⟨(claim_C5_hard_filters constLog "s" "d" 0 "" ["99"] ["98"]
      [hMovie] [] [] []).1 hMovie (by with_unfolding_all decide),
   (claim_C5_hard_filters constLog "s" "d" 0 "" ["99"] ["98"]
      [hMovie] [] [] []).2 (toCard (makeSignature "") hMovie)
      (by with_unfolding_all decide)⟩

end WTW

namespace WTW

/-- C3 counterexample: `buildGenreWeights` is fed the merged slice
concatenation before the id-dedup, so a kept candidate present in two
slices (possible since the two era windows share a boundary year)
contributes twice to its genre's like-counter, whereas the claim's
"number of distinct pool candidates" is one. -/
theorem claim_C3_counterexample :
    likeCountOf [dupMovie, dupMovie] ["7"] 35 = 2 ∧
    distinctLikeCount [dupMovie, dupMovie] ["7"] 35 = 1 ∧
    likeCountOf [dupMovie, dupMovie] ["7"] 35 ≠
      distinctLikeCount [dupMovie, dupMovie] ["7"] 35 := by
  refine ⟨?_, ?_, ?_⟩ <;> with_unfolding_all decide

/-- C3 (amended): the per-request genre weight maps count raw
occurrences with multiplicity over the merged slice concatenation
(before id-dedup): the count distributes over concatenation, a single
candidate contributes its genre-tag count exactly when its id is kept,
and consequently a genre with 3 prior keep-occurrences and 0 passes adds
exactly +6 to the score of any candidate tagged once with that genre,
relative to an identical candidate with no genre history. -/
theorem claim_C3_amended :
    (∀ (p1 p2 : List Movie) (keptIds : List String) (g : Int),
      likeCountOf (p1 ++ p2) keptIds g =
        likeCountOf p1 keptIds g + likeCountOf p2 keptIds g) ∧
    (∀ (m : Movie) (keptIds : List String) (g : Int),
      likeCountOf [m] keptIds g =
        if keptIds.contains (toString m.id) then
          (m.genre_ids.getD []).count g
        else 0) ∧
    (∀ (L : ℚ → ℚ) (m : Movie) (sig : Signature) (g : Int),
      (m.genre_ids.getD []).count g = 1 →
      scoreMovie L m sig (fun x => if x = g then 3 else 0) (fun _ => 0) =
        scoreMovie L m sig (fun _ => 0) (fun _ => 0) + 6) :=
  ⟨likeCountOf_append, likeCountOf_singleton, scoreMovie_like3_plus6⟩

/-- Witness for the amended C3: the +6 shift at a concrete comedy-tagged
candidate. -/
theorem claim_C3_amended_witness :
    scoreMovie constLog dupMovie emptySignature
        (fun x => if x = 35 then 3 else 0) (fun _ => 0) =
      scoreMovie constLog dupMovie emptySignature
        (fun _ => 0) (fun _ => 0) + 6 :=
  claim_C3_amended.2.2 constLog dupMovie emptySignature 35 (by decide)

end WTW

namespace WTW

/-- C1: for fixed sessionId, calendar day, rerollIndex, slice snapshot
and feedback lists, two runs of the pipeline are bit-identical; the seed
is the FNV-1a style 32-bit hash of `` `${sessionId}:${day}:${reroll}` ``
(empty string hashes to the FNV offset basis 2166136261, and each
appended character folds in by xor-then-multiply with 16777619 mod
2^32); and all randomness enters only through the deck assembly seeded
with that hash (the mulberry32 state threaded from it). -/
theorem claim_C1_determinism :
    (∀ (L : ℚ → ℚ) (sid day : String) (reroll : Int) (q : String)
        (likes passes : List String) (s1 s2 s3 s4 : List Movie),
      buildDeck L sid day reroll q likes passes s1 s2 s3 s4 =
        buildDeck L sid day reroll q likes passes s1 s2 s3 s4) ∧
    (∀ (sid day : String) (reroll : Int),
      deckSeed sid day reroll =
        hashStringToSeed (sid ++ ":" ++ day ++ ":" ++ toString reroll)) ∧
    hashStringToSeed "" = 2166136261 ∧
    (∀ (s : String) (c : Char),
      hashStringToSeed (s.push c) =
        jsImul (hashStringToSeed s ^^^ c.toNat) 16777619) ∧
    (∀ (L : ℚ → ℚ) (sid day : String) (reroll : Int) (q : String)
        (likes passes : List String) (s1 s2 s3 s4 : List Movie),
      pickedMovies L sid day reroll q likes passes s1 s2 s3 s4 =
        assembleDeck
          (rankedOf L (makeSignature q)
            (likeCountOf (s1 ++ s2 ++ s3 ++ s4) likes)
            (likeCountOf (s1 ++ s2 ++ s3 ++ s4) passes)
            (filteredOf (makeSignature q)
              (candidatesOf (makeSignature q) (s1 ++ s2 ++ s3 ++ s4) likes
                passes)))
          (deckSeed sid day reroll)) := by
  refine ⟨fun _ _ _ _ _ _ _ _ _ _ _ => rfl, fun _ _ _ => rfl, rfl, ?_,
    pickedMovies_eq⟩
  intro s c
  have e : (s.push c).data = s.data ++ [c] := by
    cases s
    rfl
  unfold hashStringToSeed
  rw [e, List.foldl_append]
  rfl

set_option maxRecDepth 8192 in
/-- C10: deriving a card's year is total — 0 for an absent or empty
release date or when the first four characters do not parse as a finite
number, otherwise that number — and every returned card's kind is the
constant `movie`; the `tv` alternative is never produced. -/
theorem claim_C10_year_and_kind :
    (∀ d : Option String, yearFromDate d = yearSpec d) ∧
    yearFromDate none = 0 ∧
    yearFromDate (some "") = 0 ∧
    yearFromDate (some "1999-01-01") = 1999 ∧
    yearFromDate (some "abcd-01-01") = 0 ∧
    (∀ (L : ℚ → ℚ) (sid day : String) (reroll : Int) (q : String)
        (likes passes : List String) (s1 s2 s3 s4 : List Movie),
      (buildDeck L sid day reroll q likes passes s1 s2 s3 s4).all
        (fun c => c.kind == Kind.movie) = true) := by
  refine ⟨?_, rfl, by with_unfolding_all decide, by with_unfolding_all decide,
    by with_unfolding_all decide, ?_⟩
  · intro d
    match d with
    | none => rfl
    | some s =>
      by_cases h : s = ""
      · subst h
        with_unfolding_all decide
      · have hb : (s == "") = false := by simpa using h
        unfold yearFromDate yearSpec
        simp [hb]
  · intro L sid day reroll q likes passes s1 s2 s3 s4
    rw [List.all_eq_true]
    intro c hc
    unfold buildDeck at hc
    obtain ⟨m, _, hcm⟩ := List.mem_map.1 hc
    rw [← hcm]
    rfl

/-- C8: the intent extractor is total, lower-cases its input, and sets
each flag exactly when some phrase of that flag's fixed lexicon occurs
as a substring; the empty text yields the all-false signature, and any
text whose lower-casing contains "horror" sets the horror flag. -/
theorem claim_C8_intent_extractor :
    (∀ q : String,
      ((makeSignature q).anime = true ↔
        ∃ w ∈ animeLexicon, w.data <:+: (jsToLowerCase q).data) ∧
      ((makeSignature q).comedy = true ↔
        ∃ w ∈ comedyLexicon, w.data <:+: (jsToLowerCase q).data) ∧
      ((makeSignature q).horror = true ↔
        ∃ w ∈ horrorLexicon, w.data <:+: (jsToLowerCase q).data) ∧
      ((makeSignature q).mystery = true ↔
        ∃ w ∈ mysteryLexicon, w.data <:+: (jsToLowerCase q).data) ∧
      ((makeSignature q).trippy = true ↔
        ∃ w ∈ trippyLexicon, w.data <:+: (jsToLowerCase q).data) ∧
      ((makeSignature q).underrated = true ↔
        ∃ w ∈ underratedLexicon, w.data <:+: (jsToLowerCase q).data) ∧
      ((makeSignature q).badMovie = true ↔
        ∃ w ∈ badMovieLexicon, w.data <:+: (jsToLowerCase q).data)) ∧
    makeSignature "" = emptySignature ∧
    (∀ q : String, "horror".data <:+: (jsToLowerCase q).data →
      (makeSignature q).horror = true) := by
  refine ⟨?_, rfl, ?_⟩
  · intro q
    unfold makeSignature hasAnyPhrase strIncludes
    dsimp only
    refine ⟨?_, ?_, ?_, ?_, ?_, ?_, ?_⟩ <;>
      (rw [List.any_eq_true]
       constructor
       · rintro ⟨w, hw, hdec⟩
         exact ⟨w, hw, of_decide_eq_true hdec⟩
       · rintro ⟨w, hw, hinf⟩
         exact ⟨w, hw, decide_eq_true hinf⟩)
  · intro q h
    show horrorLexicon.any
      (fun w => strIncludes (jsToLowerCase q) w) = true
    rw [List.any_eq_true]
    refine ⟨"horror", by simp [horrorLexicon], ?_⟩
    exact decide_eq_true h

/-- Witness for C8: an upper-case occurrence of "horror" sets the
horror flag. -/
theorem claim_C8_witness :
    (makeSignature "A HORROR night").horror = true :=
  claim_C8_intent_extractor.2.2 "A HORROR night" (by decide)

/-- C9: request parsing never fails — an absent body and wrong-typed
fields degrade to the defaults (empty trimmed query when `q` is missing
or not a string, reroll 0 when `reroll` is missing or not a number,
empty feedback lists when `likes`/`passes` are missing or not arrays)
and array fields keep exactly their string elements. -/
theorem claim_C9_parse_defaults :
    parseRequest none = { q := "", reroll := 0, likes := [], passes := [] } ∧
    (∀ b : JVal, getStringField b "q" = none →
      (parseRequest (some b)).q = "") ∧
    (∀ b : JVal, getNumberField b "reroll" = none →
      (parseRequest (some b)).reroll = 0) ∧
    (∀ b : JVal, (∀ xs : List JVal, jfield b "likes" ≠ some (JVal.jarr xs)) →
      (parseRequest (some b)).likes = []) ∧
    (∀ b : JVal, (∀ xs : List JVal, jfield b "passes" ≠ some (JVal.jarr xs)) →
      (parseRequest (some b)).passes = []) ∧
    (∀ (b : JVal) (xs : List JVal), jfield b "likes" = some (JVal.jarr xs) →
      (parseRequest (some b)).likes = xs.filterMap jstrOf) ∧
    (∀ (b : JVal) (xs : List JVal), jfield b "passes" = some (JVal.jarr xs) →
      (parseRequest (some b)).passes = xs.filterMap jstrOf) := by
  refine ⟨rfl, ?_, ?_, ?_, ?_, ?_, ?_⟩
  · intro b h
    show jsTrim ((getStringField b "q").getD "") = ""
    rw [h]
    rfl
  · intro b h
    show (getNumberField b "reroll").getD 0 = 0
    rw [h]
    rfl
  · intro b h
    show getArrayStrings b "likes" = []
    unfold getArrayStrings
    cases hj : jfield b "likes" with
    | none => rfl
    | some v =>
      cases v with
      | jarr xs => exact absurd hj (h xs)
      | jnull => rfl
      | jbool bb => rfl
      | jnum n => rfl
      | jstr s => rfl
      | jobj fs => rfl
  · intro b h
    show getArrayStrings b "passes" = []
    unfold getArrayStrings
    cases hj : jfield b "passes" with
    | none => rfl
    | some v =>
      cases v with
      | jarr xs => exact absurd hj (h xs)
      | jnull => rfl
      | jbool bb => rfl
      | jnum n => rfl
      | jstr s => rfl
      | jobj fs => rfl
  · intro b xs h
    show getArrayStrings b "likes" = xs.filterMap jstrOf
    unfold getArrayStrings
    rw [h]
  · intro b xs h
    show getArrayStrings b "passes" = xs.filterMap jstrOf
    unfold getArrayStrings
    rw [h]

/-- Witness for C9: concrete malformed bodies degrade to the defaults,
and a mixed array keeps its string elements. -/
theorem claim_C9_witness :
    (parseRequest (some (JVal.jobj [("q", JVal.jnum 5)]))).q = "" ∧
    (parseRequest (some (JVal.jobj [("reroll", JVal.jstr "x")]))).reroll = 0 ∧
    (parseRequest (some (JVal.jobj [("likes", JVal.jnum 3)]))).likes = [] ∧
    (parseRequest (some (JVal.jobj [("passes", JVal.jbool true)]))).passes
      = [] ∧
    (parseRequest (some (JVal.jobj [("likes",
      JVal.jarr [JVal.jstr "a", JVal.jnum 1, JVal.jstr "b"])]))).likes =
      ["a", "b"] :=
  ⟨claim_C9_parse_defaults.2.1 (JVal.jobj [("q", JVal.jnum 5)]) rfl,
   claim_C9_parse_defaults.2.2.1 (JVal.jobj [("reroll", JVal.jstr "x")]) rfl,
   claim_C9_parse_defaults.2.2.2.1 (JVal.jobj [("likes", JVal.jnum 3)])
     (fun xs h => by
       have h' : some (JVal.jnum 3) = some (JVal.jarr xs) := h
       exact JVal.noConfusion (Option.some.inj h')),
   claim_C9_parse_defaults.2.2.2.2.1 (JVal.jobj [("passes", JVal.jbool true)])
     (fun xs h => by
       have h' : some (JVal.jbool true) = some (JVal.jarr xs) := h
       exact JVal.noConfusion (Option.some.inj h')),
   (claim_C9_parse_defaults.2.2.2.2.2.1
     (JVal.jobj [("likes",
       JVal.jarr [JVal.jstr "a", JVal.jnum 1, JVal.jstr "b"])])
     [JVal.jstr "a", JVal.jnum 1, JVal.jstr "b"] rfl).trans rfl⟩

end WTW

namespace WTW

/-- Unfolding of the pool restriction under a single-genre intent. -/
theorem filteredOf_pos (sig : Signature) (cands : List Movie)
    (h : isSingleGenreIntent sig = true) :
    filteredOf sig cands =
      if (genreRestrict sig cands).length < 25 then cands
      else genreRestrict sig cands := by
  unfold filteredOf
  rw [if_pos h]

/-- Without a single-genre intent the pool is unrestricted. -/
theorem filteredOf_neg (sig : Signature) (cands : List Movie)
    (h : isSingleGenreIntent sig = false) :
    filteredOf sig cands = cands := by
  unfold filteredOf
  rw [if_neg (by simp [h])]

/-- Under exactly one genre intent, the genre restriction keeps only
candidates tagged with the matching genre. -/
theorem genreRestrict_matching (sig : Signature) (cands : List Movie)
    (h1 : intentCount sig = 1) :
    ∀ m ∈ genreRestrict sig cands,
      (m.genre_ids.getD []).contains (matchingGenre sig) = true := by
  obtain ⟨a, c, hh, my, t, u, b⟩ := sig
  intro m hm
  cases a <;> cases c <;> cases hh <;> cases my <;>
    first
      | (exfalso; revert h1; simp [intentCount]; done)
      | (simp only [genreRestrict, if_true, if_false, Bool.false_eq_true,
          if_neg, if_pos] at hm
         rw [List.mem_filter] at hm
         simpa [matchingGenre, genreAnimation, genreComedy, genreHorror,
           genreMystery] using hm.2)

end WTW

namespace WTW

/-- C4: when exactly one of {anime, comedy, horror, mystery} is set and
neither underrated nor badMovie is, the pool is additionally restricted
to candidates tagged with the matching genre id (anime→16, comedy→35,
horror→27, mystery→9648); if that leaves fewer than 25 candidates the
restriction is discarded and the pool reverts; in every other flag
combination no genre restriction is applied. -/
theorem claim_C4_single_genre (sig : Signature) (cands : List Movie) :
    ((intentCount sig = 1 ∧ sig.underrated = false ∧ sig.badMovie = false) →
      ((genreRestrict sig cands).length < 25 →
        filteredOf sig cands = cands) ∧
      (25 ≤ (genreRestrict sig cands).length →
        filteredOf sig cands = genreRestrict sig cands ∧
        ∀ m ∈ filteredOf sig cands,
          (m.genre_ids.getD []).contains (matchingGenre sig) = true)) ∧
    (¬(intentCount sig = 1 ∧ sig.underrated = false ∧ sig.badMovie = false) →
      filteredOf sig cands = cands) := by
  constructor
  · rintro ⟨h1, h2, h3⟩
    have hsg : isSingleGenreIntent sig = true := by
      simp [isSingleGenreIntent, h1, h2, h3]
    constructor
    · intro h25
      rw [filteredOf_pos sig cands hsg, if_pos h25]
    · intro h25
      have hne : ¬((genreRestrict sig cands).length < 25) := by omega
      refine ⟨by rw [filteredOf_pos sig cands hsg, if_neg hne], ?_⟩
      intro m hm
      rw [filteredOf_pos sig cands hsg, if_neg hne] at hm
      exact genreRestrict_matching sig cands h1 m hm
  · intro hneg
    apply filteredOf_neg
    unfold isSingleGenreIntent
    by_cases hc : intentCount sig = 1
    · by_cases hu : sig.underrated = false
      · by_cases hb : sig.badMovie = false
        · exact absurd ⟨hc, hu, hb⟩ hneg
        · have hbt : sig.badMovie = true := by
            revert hb
            cases sig.badMovie <;> simp
          simp [hbt]
      · have hut : sig.underrated = true := by
          revert hu
          cases sig.underrated <;> simp
        simp [hut]
    · simp [hc]

/-- Witness for C4: a 25-strong horror pool stays restricted and every
survivor carries the horror tag; a one-movie pool reverts; a no-intent
signature leaves the pool untouched. -/
theorem claim_C4_witness :
    filteredOf horrorSignature pool25 = genreRestrict horrorSignature pool25 ∧
    (hMovie.genre_ids.getD []).contains (matchingGenre horrorSignature)
      = true ∧
    filteredOf horrorSignature [hMovie] = [hMovie] ∧
    filteredOf emptySignature pool25 = pool25 :=
  ⟨(((claim_C4_single_genre horrorSignature pool25).1
      ⟨rfl, rfl, rfl⟩).2 (by decide)).1,
   (((claim_C4_single_genre horrorSignature pool25).1
      ⟨rfl, rfl, rfl⟩).2 (by decide)).2 hMovie (by decide),
   ((claim_C4_single_genre horrorSignature [hMovie]).1
      ⟨rfl, rfl, rfl⟩).1 (by decide),
   (claim_C4_single_genre emptySignature pool25).2 (by decide)⟩

end WTW

namespace WTW

/-- A duplicate-free id list splits disjointly at any rank boundary. -/
theorem ids_take_drop_disjoint (n : Nat) (R : List Movie)
    (hn : (R.map Movie.id).Nodup) :
    List.Disjoint ((R.take n).map Movie.id) ((R.drop n).map Movie.id) := by
  have hTD : R.map Movie.id =
      (R.take n).map Movie.id ++ (R.drop n).map Movie.id := by
    rw [← List.map_append, List.take_append_drop]
  rw [hTD, List.nodup_append] at hn
  exact hn.2.2

/-- The tail of a duplicate-free id list is duplicate-free. -/
theorem ids_drop_nodup (n : Nat) (R : List Movie)
    (hn : (R.map Movie.id).Nodup) : ((R.drop n).map Movie.id).Nodup :=
  ids_nodup_of_sublist (List.drop_sublist n R) hn

/-- C7: the shuffler touches exactly the two disjoint buckets
`ranked[0:60)` and `ranked[60:220)`, each reordered by the uniform
Fisher–Yates shuffle, the top bucket strictly before the mid bucket on
one shared generator state; candidates ranked at 220 or beyond never
enter either shuffled bucket, and the deck takes the first 6 post-
shuffle entries of the top bucket plus the first 4 of the mid bucket
before any top-up. -/
theorem claim_C7_bucket_shuffle (L : ℚ → ℚ) (sid day : String)
    (reroll : Int) (q : String) (likes passes : List String)
    (s1 s2 s3 s4 : List Movie) :
    (∀ (l : List Movie) (st : Nat), ((shuffleInPlace l st).1).Perm l) ∧
    (pickedInit (rankedPipeline L q likes passes (s1 ++ s2 ++ s3 ++ s4))
        (deckSeed sid day reroll) =
      (shuffleInPlace
          ((rankedPipeline L q likes passes (s1 ++ s2 ++ s3 ++ s4)).take 60)
          (deckSeed sid day reroll)).1.take 6 ++
        (shuffleInPlace
          (((rankedPipeline L q likes passes
            (s1 ++ s2 ++ s3 ++ s4)).drop 60).take 160)
          (shuffleInPlace
            ((rankedPipeline L q likes passes (s1 ++ s2 ++ s3 ++ s4)).take 60)
            (deckSeed sid day reroll)).2).1.take 4) ∧
    (pickedMovies L sid day reroll q likes passes s1 s2 s3 s4 =
      (if (pickedInit (rankedPipeline L q likes passes
            (s1 ++ s2 ++ s3 ++ s4)) (deckSeed sid day reroll)).length < 10
        then
          topUpAux (rankedPipeline L q likes passes (s1 ++ s2 ++ s3 ++ s4))
            (pickedInit (rankedPipeline L q likes passes
              (s1 ++ s2 ++ s3 ++ s4)) (deckSeed sid day reroll))
            ((pickedInit (rankedPipeline L q likes passes
              (s1 ++ s2 ++ s3 ++ s4)) (deckSeed sid day reroll)).map
                Movie.id)
        else pickedInit (rankedPipeline L q likes passes
          (s1 ++ s2 ++ s3 ++ s4)) (deckSeed sid day reroll)).take 10) ∧
    List.Disjoint
      (((rankedPipeline L q likes passes (s1 ++ s2 ++ s3 ++ s4)).take
        60).map Movie.id)
      ((((rankedPipeline L q likes passes (s1 ++ s2 ++ s3 ++ s4)).drop
        60).take 160).map Movie.id) ∧
    (((rankedPipeline L q likes passes (s1 ++ s2 ++ s3 ++ s4)).drop
        220).all (fun m =>
      !(decide (m ∈ (shuffleInPlace
        ((rankedPipeline L q likes passes (s1 ++ s2 ++ s3 ++ s4)).take 60)
        (deckSeed sid day reroll)).1)) &&
      !(decide (m ∈ (shuffleInPlace
        (((rankedPipeline L q likes passes
          (s1 ++ s2 ++ s3 ++ s4)).drop 60).take 160)
        (shuffleInPlace
          ((rankedPipeline L q likes passes (s1 ++ s2 ++ s3 ++ s4)).take 60)
          (deckSeed sid day reroll)).2).1))) = true) := by
  have hrn : ((rankedPipeline L q likes passes
      (s1 ++ s2 ++ s3 ++ s4)).map Movie.id).Nodup :=
    ranked_pipeline_ids_nodup L q likes passes (s1 ++ s2 ++ s3 ++ s4)
  refine ⟨shuffleInPlace_perm, rfl, assembleDeck_eq _ _, ?_, ?_⟩
  · intro a ha hb
    have hb' : a ∈ ((rankedPipeline L q likes passes
        (s1 ++ s2 ++ s3 ++ s4)).drop 60).map Movie.id := by
      obtain ⟨x, hx, hxa⟩ := List.mem_map.1 hb
      exact hxa ▸ List.mem_map_of_mem Movie.id
        ((List.take_sublist 160 _).subset hx)
    exact ids_take_drop_disjoint 60 _ hrn ha hb'
  · rw [List.all_eq_true]
    intro m hm
    have hm60 : m ∈ (rankedPipeline L q likes passes
        (s1 ++ s2 ++ s3 ++ s4)).drop 60 := by
      have e : (rankedPipeline L q likes passes
          (s1 ++ s2 ++ s3 ++ s4)).drop 220 =
          ((rankedPipeline L q likes passes
            (s1 ++ s2 ++ s3 ++ s4)).drop 60).drop 160 := by
        rw [List.drop_drop]
      rw [e] at hm
      exact (List.drop_sublist 160 _).subset hm
    have hm160 : m ∈ ((rankedPipeline L q likes passes
        (s1 ++ s2 ++ s3 ++ s4)).drop 60).drop 160 := by
      have e : (rankedPipeline L q likes passes
          (s1 ++ s2 ++ s3 ++ s4)).drop 220 =
          ((rankedPipeline L q likes passes
            (s1 ++ s2 ++ s3 ++ s4)).drop 60).drop 160 := by
        rw [List.drop_drop]
      rw [e] at hm
      exact hm
    rw [Bool.and_eq_true]
    constructor
    · rw [Bool.not_eq_true', decide_eq_false_iff_not]
      intro hmem
      have h1 : m ∈ (rankedPipeline L q likes passes
          (s1 ++ s2 ++ s3 ++ s4)).take 60 :=
        (shuffleInPlace_perm _ _).mem_iff.1 hmem
      exact ids_take_drop_disjoint 60 _ hrn
        (List.mem_map_of_mem Movie.id h1)
        (List.mem_map_of_mem Movie.id hm60)
    · rw [Bool.not_eq_true', decide_eq_false_iff_not]
      intro hmem
      have h1 : m ∈ ((rankedPipeline L q likes passes
          (s1 ++ s2 ++ s3 ++ s4)).drop 60).take 160 :=
        (shuffleInPlace_perm _ _).mem_iff.1 hmem
      exact ids_take_drop_disjoint 160 _ (ids_drop_nodup 60 _ hrn)
        (List.mem_map_of_mem Movie.id h1)
        (List.mem_map_of_mem Movie.id hm160)

end WTW

namespace WTW

/-- Witness for C6: the length formula evaluated on a concrete
one-candidate run. -/
theorem claim_C6_witness :
    (buildDeck constLog "s" "d" 0 "" [] [] [hMovie] [] [] []).length =
      min 10 (candidatesOf (makeSignature "")
        ([hMovie] ++ [] ++ [] ++ []) [] []).length :=
  (claim_C6_deck_size constLog "s" "d" 0 "" [] [] [hMovie] [] [] []).1

/-- Witness for C7: the six-plus-four decomposition instantiated on a
concrete run. -/
theorem claim_C7_witness :
    pickedMovies constLog "s" "d" 0 "" [] [] [hMovie] [] [] [] =
      (if (pickedInit (rankedPipeline constLog "" [] []
          ([hMovie] ++ [] ++ [] ++ [])) (deckSeed "s" "d" 0)).length < 10
        then
          topUpAux (rankedPipeline constLog "" [] []
              ([hMovie] ++ [] ++ [] ++ []))
            (pickedInit (rankedPipeline constLog "" [] []
              ([hMovie] ++ [] ++ [] ++ [])) (deckSeed "s" "d" 0))
            ((pickedInit (rankedPipeline constLog "" [] []
              ([hMovie] ++ [] ++ [] ++ [])) (deckSeed "s" "d" 0)).map
                Movie.id)
        else pickedInit (rankedPipeline constLog "" [] []
          ([hMovie] ++ [] ++ [] ++ [])) (deckSeed "s" "d" 0)).take 10 :=
  (claim_C7_bucket_shuffle constLog "s" "d" 0 "" [] []
    [hMovie] [] [] []).2.2.1

end WTW
